import Mathlib

/-! rtlflags: command-line flag control over rtl-sdr settings.

Shallow embedding of `rtlflags.go` and the properties of its flag handling.

* Go's `error` is embedded as `Option String`: `none` is `nil`, `some msg` is a
  non-nil error whose `Error()` text is `msg`.
* The `Radio` interface is a record of ten setters over an explicit device
  state `σ`; every setter returns its error together with the next state.
* A `float64` is a finite rational value, an infinity or NaN; its product
  rounds to nearest, ties to even, and its conversion to the 64-bit `int`
  truncates. Other Go `int` values are embedded in `Int`.
* Functions of the Go standard library that the source calls
  (`strings.ToLower`, the `%q` verb of `fmt.Errorf`) are parameters of the
  definitions that use them; ASCII models are supplied for concrete runs.
* Package `si` is not part of the source: its scientific-notation values and
  their parser are modelled from the specification, in namespace `si`.
-/

set_option autoImplicit false

namespace rtlflags

/-! ## Go values -/

/-- Go `error` value: `none` is `nil`, `some msg` a non-nil error with text `msg`. -/
abbrev error := Option String

/-- Integer part of a rational: the fraction is discarded (truncation toward
zero). -/
def truncToInt (x : ℚ) : Int := Int.tdiv x.num x.den

/-- Go `float64` value: a finite value, given by the rational it denotes (one of
the form `m * 2 ^ e` with a 53-bit `m`, see `isFloat64`), an infinity with its
sign, or NaN. The two zeros are not told apart: both convert to the integer
0. -/
inductive Float64 where
  | finite (q : ℚ)
  | inf (negative : Bool)
  | nan
deriving DecidableEq

/-- Rounding of a rational to the nearest integer, a tie going to the even
one. -/
def roundHalfEven (x : ℚ) : Int :=
  if x - ⌊x⌋ < 1 / 2 then ⌊x⌋
  else if 1 / 2 < x - ⌊x⌋ then ⌊x⌋ + 1
  else if ⌊x⌋ % 2 = 0 then ⌊x⌋ else ⌊x⌋ + 1

/-- Exponent of the unit in the last place of a float64 of magnitude `a`: 52
binary places below the leading bit, and never below the subnormal exponent
-1074. -/
def ulpExponent (a : ℚ) : Int := max (Int.log 2 a - 52) (-1074)

/-- IEEE 754 rounding of an exact result to `float64`, to nearest with ties to
even: the magnitude is rounded to a multiple of its unit in the last place, and
a rounded magnitude of `2 ^ 1024` or more overflows to the infinity of the
sign. -/
def round64 (x : ℚ) : Float64 :=
  if 2 ^ 1024 ≤ (roundHalfEven (|x| / 2 ^ ulpExponent |x|) : ℚ) * 2 ^ ulpExponent |x| then
    .inf (decide (x < 0))
  else if x < 0 then
    .finite (-((roundHalfEven (|x| / 2 ^ ulpExponent |x|) : ℚ) * 2 ^ ulpExponent |x|))
  else .finite ((roundHalfEven (|x| / 2 ^ ulpExponent |x|) : ℚ) * 2 ^ ulpExponent |x|)

/-- Go product `x * y` of two `float64` values: the exact product rounded to
`float64`; an infinity times zero and every product with NaN is NaN. -/
def Float64.mul : Float64 → Float64 → Float64
  | .finite a, .finite b => round64 (a * b)
  | .finite a, .inf n => if a = 0 then .nan else .inf (n != decide (a < 0))
  | .inf n, .finite b => if b = 0 then .nan else .inf (n != decide (b < 0))
  | .inf n, .inf m => .inf (n != m)
  | _, _ => .nan

/-- Go conversion `int(x)` of a `float64` to the 64-bit `int`: the fraction is
discarded. For a value `int` cannot hold (out of range, an infinity, NaN) Go
leaves the result to the implementation; it is the smallest `int` here, as on
amd64. -/
def Float64.toInt : Float64 → Int
  | .finite q =>
    if -2 ^ 63 ≤ truncToInt q ∧ truncToInt q < 2 ^ 63 then truncToInt q else -2 ^ 63
  | _ => -2 ^ 63

/-- The rationals a finite `float64` can hold: `m * 2 ^ e` with a mantissa of
at most 53 bits and an exponent between -1074 and 971. -/
def isFloat64 (q : ℚ) : Prop :=
  ∃ m e : Int, |m| < 2 ^ 53 ∧ -1074 ≤ e ∧ e ≤ 971 ∧ q = m * 2 ^ e

/-- ASCII model of `strings.ToLower`: maps `A`..`Z` to `a`..`z`, keeps every
other character. It agrees with Go on ASCII text. -/
def asciiToLower (s : String) : String := String.mk (s.data.map Char.toLower)

/-- Escaping of one character inside a Go double-quoted string, for printable
ASCII and the common control characters: code 34 is the double quote, 92 the
backslash, 10, 9 and 13 are newline, tab and carriage return. -/
def quoteChar (ch : Char) : List Char :=
  if ch = Char.ofNat 34 then [Char.ofNat 92, Char.ofNat 34]
  else if ch = Char.ofNat 92 then [Char.ofNat 92, Char.ofNat 92]
  else if ch = Char.ofNat 10 then [Char.ofNat 92, 'n']
  else if ch = Char.ofNat 9 then [Char.ofNat 92, 't']
  else if ch = Char.ofNat 13 then [Char.ofNat 92, 'r']
  else [ch]

/-- ASCII model of `strconv.Quote` (the `%q` verb): the text between double
quotes with `quoteChar` escapes. It agrees with Go on printable ASCII text. -/
def asciiQuote (s : String) : String :=
  String.mk (Char.ofNat 34 :: (s.data.flatMap quoteChar ++ [Char.ofNat 34]))

/-! ## SamplingMode -/

/-- Go `type SamplingMode int`. -/
structure SamplingMode where
  val : Int
deriving DecidableEq, Repr

/-- Go `SamplingNone SamplingMode = iota`. -/
def SamplingNone : SamplingMode := ⟨0⟩

/-- Go `SamplingIADC`, the second constant of the `iota` block. -/
def SamplingIADC : SamplingMode := ⟨1⟩

/-- Go `SamplingQADC`, the third constant of the `iota` block. -/
def SamplingQADC : SamplingMode := ⟨2⟩

/-- Go `SamplingUnknown`, the fourth constant of the `iota` block. -/
def SamplingUnknown : SamplingMode := ⟨3⟩

/-- Go `func (s *SamplingMode) Set(val string) (err error)`: the receiver after
the call and the returned error. `lower` is `strings.ToLower`, `quote` is the
`%q` formatting of `fmt.Errorf`. -/
def SamplingMode.Set (lower quote : String → String) (s : SamplingMode) (val : String) :
    SamplingMode × error :=
  let s1 :=
    if lower val = "none" then SamplingNone
    else if lower val = "inphase" then SamplingIADC
    else if lower val = "quadrature" then SamplingQADC
    else s
  (s1, some ("invalid sampling mode: " ++ quote val))

/-- Go `func (s SamplingMode) String() string`. -/
def SamplingMode.String (s : SamplingMode) : String :=
  if s = SamplingNone then "None"
  else if s = SamplingIADC then "In-Phase ADC"
  else if s = SamplingQADC then "Quadrature ADC"
  else "Unknown"

end rtlflags

namespace si

/-- Modelled from the spec: the type `si.ScientificNotation` of package
`github.com/bemasher/rtltcp/si`, a real quantity written with an optional SI
suffix and coerced to an integer count by conversion; embedded over exact
rationals. -/
abbrev ScientificNotation := ℚ

/-- Modelled from the spec: `AsInteger()` of the absent package `si`, the
integer count of a value, which is what the conversion `int(v)` in
`HandleFlags` yields for a scientific-notation field: the value truncated to
an integer. -/
def AsInteger (v : ScientificNotation) : Int := rtlflags.truncToInt v

end si

namespace rtlflags

/-! ## Radio and Context -/

/-- Go `type Radio interface`: one setter per property. A setter runs on the
device state and returns its error with the state it leaves behind. -/
structure Radio (σ : Type) where
  SetAgcMode : Bool → σ → error × σ
  SetCenterFreq : Int → σ → error × σ
  SetDirectSampling : Int → σ → error × σ
  SetFreqCorrection : Int → σ → error × σ
  SetOffsetTuning : Bool → σ → error × σ
  SetSampleRate : Int → σ → error × σ
  SetTestMode : Bool → σ → error × σ
  SetTunerBw : Int → σ → error × σ
  SetTunerGain : Int → σ → error × σ
  SetTunerGainMode : Bool → σ → error × σ

/-- Go `type Context struct`: the embedded Radio and one pending value per
property. -/
structure Context (σ : Type) where
  Radio : Radio σ
  agcMode : Bool
  centerFreq : si.ScientificNotation
  directSampling : SamplingMode
  freqCorrection : Int
  offsetTuning : Bool
  sampleRate : si.ScientificNotation
  testMode : Bool
  tunerBandwidth : si.ScientificNotation
  tunerGain : Float64
  tunerGainMode : Bool

/-- One invocation of a Radio method together with its argument. -/
inductive Call where
  | SetAgcMode (b : Bool)
  | SetCenterFreq (n : Int)
  | SetDirectSampling (n : Int)
  | SetFreqCorrection (n : Int)
  | SetOffsetTuning (b : Bool)
  | SetSampleRate (n : Int)
  | SetTestMode (b : Bool)
  | SetTunerBw (n : Int)
  | SetTunerGain (n : Int)
  | SetTunerGainMode (b : Bool)
deriving DecidableEq, Repr

/-- Name of the Radio method a call invokes. -/
def Call.method : Call → String
  | .SetAgcMode _ => "SetAgcMode"
  | .SetCenterFreq _ => "SetCenterFreq"
  | .SetDirectSampling _ => "SetDirectSampling"
  | .SetFreqCorrection _ => "SetFreqCorrection"
  | .SetOffsetTuning _ => "SetOffsetTuning"
  | .SetSampleRate _ => "SetSampleRate"
  | .SetTestMode _ => "SetTestMode"
  | .SetTunerBw _ => "SetTunerBw"
  | .SetTunerGain _ => "SetTunerGain"
  | .SetTunerGainMode _ => "SetTunerGainMode"

/-- Perform a call on a radio. -/
def Radio.invoke {σ : Type} (r : Radio σ) : Call → σ → error × σ
  | .SetAgcMode b => r.SetAgcMode b
  | .SetCenterFreq n => r.SetCenterFreq n
  | .SetDirectSampling n => r.SetDirectSampling n
  | .SetFreqCorrection n => r.SetFreqCorrection n
  | .SetOffsetTuning b => r.SetOffsetTuning b
  | .SetSampleRate n => r.SetSampleRate n
  | .SetTestMode b => r.SetTestMode b
  | .SetTunerBw n => r.SetTunerBw n
  | .SetTunerGain n => r.SetTunerGain n
  | .SetTunerGainMode b => r.SetTunerGainMode b

/-! ## HandleFlags -/

/-- The `switch f.Name` of the closure in `HandleFlags`: the setter call the
case of this flag name makes, `none` when no case matches. -/
def Context.dispatch {σ : Type} (c : Context σ) (name : String) : Option Call :=
  if name = "agcmode" then some (.SetAgcMode c.agcMode)
  else if name = "centerfreq" then some (.SetCenterFreq (si.AsInteger c.centerFreq))
  else if name = "directsampling" then some (.SetDirectSampling c.directSampling.val)
  else if name = "freqcorrection" then some (.SetFreqCorrection c.freqCorrection)
  else if name = "offsettuning" then some (.SetOffsetTuning c.offsetTuning)
  else if name = "samplerate" then some (.SetSampleRate (si.AsInteger c.sampleRate))
  else if name = "testmode" then some (.SetTestMode c.testMode)
  else if name = "tunerbandwidth" then some (.SetTunerBw (si.AsInteger c.tunerBandwidth))
  else if name = "tunergain" then some (.SetTunerGain (c.tunerGain.mul (.finite 10)).toInt)
  else if name = "tunergainmode" then some (.SetTunerGainMode c.tunerGainMode)
  else none

/-- How a run of `HandleFlags` ends: it returns, or `log.Fatal(err)` prints the
error text and exits the process with status 1. -/
inductive Outcome where
  | returned
  | fatal (msg : String)
deriving DecidableEq, Repr

/-- Observable result of a run: the setter calls made, in order, the device
state left behind and the outcome. -/
structure Run (σ : Type) where
  calls : List Call
  state : σ
  outcome : Outcome

/-- Go `func (c *Context) HandleFlags()`. `visited` is the sequence of flag
names for which `flag.Visit` calls the closure (the flags that have been set),
`st` the device state at entry. For each name the closure makes the call its
`switch` selects; a non-nil error ends the run in `log.Fatal`. -/
def Context.HandleFlags {σ : Type} (c : Context σ) : List String → σ → Run σ
  | [], st => ⟨[], st, .returned⟩
  | f :: fs, st =>
    match c.dispatch f with
    | none => c.HandleFlags fs st
    | some call =>
      match c.Radio.invoke call st with
      | (some err, st1) => ⟨[call], st1, .fatal err⟩
      | (none, st1) =>
        let r := c.HandleFlags fs st1
        ⟨call :: r.calls, r.state, r.outcome⟩

/-- The ten flag names `RegisterFlags` declares, in declaration order. -/
def flagNames : List String :=
  ["agcmode", "centerfreq", "directsampling", "freqcorrection", "offsettuning",
   "samplerate", "testmode", "tunerbandwidth", "tunergain", "tunergainmode"]

/-- Run a sequence of calls on a radio, stopping at the first error. -/
def Radio.runCalls {σ : Type} (r : Radio σ) : List Call → σ → Run σ
  | [], st => ⟨[], st, .returned⟩
  | call :: cs, st =>
    match r.invoke call st with
    | (some err, st1) => ⟨[call], st1, .fatal err⟩
    | (none, st1) =>
      let run := r.runCalls cs st1
      ⟨call :: run.calls, run.state, run.outcome⟩

/-- A radio without state whose setters all succeed. -/
def okRadio : Radio Unit where
  SetAgcMode _ st := (none, st)
  SetCenterFreq _ st := (none, st)
  SetDirectSampling _ st := (none, st)
  SetFreqCorrection _ st := (none, st)
  SetOffsetTuning _ st := (none, st)
  SetSampleRate _ st := (none, st)
  SetTestMode _ st := (none, st)
  SetTunerBw _ st := (none, st)
  SetTunerGain _ st := (none, st)
  SetTunerGainMode _ st := (none, st)

/-- A fresh Context: every field holds the zero value of its type. -/
def Context.zero {σ : Type} (r : rtlflags.Radio σ) : Context σ where
  Radio := r
  agcMode := false
  centerFreq := 0
  directSampling := SamplingNone
  freqCorrection := 0
  offsetTuning := false
  sampleRate := 0
  testMode := false
  tunerBandwidth := 0
  tunerGain := .finite 0
  tunerGainMode := false

/-- Spec-side table (command-line surface and application step 2): the setter
each flag is paired with, applied to the Context's current field value; the
three scientific-notation fields and the tuner gain (times ten) are coerced to
an integer. -/
def Context.expectedCalls {σ : Type} (c : Context σ) : List (String × Call) :=
  [("agcmode", .SetAgcMode c.agcMode),
   ("centerfreq", .SetCenterFreq (si.AsInteger c.centerFreq)),
   ("directsampling", .SetDirectSampling c.directSampling.val),
   ("freqcorrection", .SetFreqCorrection c.freqCorrection),
   ("offsettuning", .SetOffsetTuning c.offsetTuning),
   ("samplerate", .SetSampleRate (si.AsInteger c.sampleRate)),
   ("testmode", .SetTestMode c.testMode),
   ("tunerbandwidth", .SetTunerBw (si.AsInteger c.tunerBandwidth)),
   ("tunergain", .SetTunerGain (c.tunerGain.mul (.finite 10)).toInt),
   ("tunergainmode", .SetTunerGainMode c.tunerGainMode)]

/-- Spec-side expected call of a flag name: its entry in `expectedCalls`. -/
def Context.expectedCall {σ : Type} (c : Context σ) (name : String) : Option Call :=
  (c.expectedCalls.find? (fun p => p.1 = name)).map Prod.snd

/-- A setter of the mock radio: it rejects the call, with the error text
`rejected`, when its method is listed in `bad`, and records it in the state
otherwise. -/
def mockSetter (bad : List String) (call : Call) (st : List Call) : error × List Call :=
  if call.method ∈ bad then (some "rejected", st) else (none, st ++ [call])

/-- A radio that records the calls it accepted in its state and rejects every
call of a method listed in `bad`. -/
def mockRadio (bad : List String) : Radio (List Call) where
  SetAgcMode b := mockSetter bad (.SetAgcMode b)
  SetCenterFreq n := mockSetter bad (.SetCenterFreq n)
  SetDirectSampling n := mockSetter bad (.SetDirectSampling n)
  SetFreqCorrection n := mockSetter bad (.SetFreqCorrection n)
  SetOffsetTuning b := mockSetter bad (.SetOffsetTuning b)
  SetSampleRate n := mockSetter bad (.SetSampleRate n)
  SetTestMode b := mockSetter bad (.SetTestMode b)
  SetTunerBw n := mockSetter bad (.SetTunerBw n)
  SetTunerGain n := mockSetter bad (.SetTunerGain n)
  SetTunerGainMode b := mockSetter bad (.SetTunerGainMode b)

/-- Flag name whose case of the `switch` in `HandleFlags` invokes the method of
this call. -/
def Call.flag : Call → String
  | .SetAgcMode _ => "agcmode"
  | .SetCenterFreq _ => "centerfreq"
  | .SetDirectSampling _ => "directsampling"
  | .SetFreqCorrection _ => "freqcorrection"
  | .SetOffsetTuning _ => "offsettuning"
  | .SetSampleRate _ => "samplerate"
  | .SetTestMode _ => "testmode"
  | .SetTunerBw _ => "tunerbandwidth"
  | .SetTunerGain _ => "tunergain"
  | .SetTunerGainMode _ => "tunergainmode"

/-! ## The flag set and RegisterFlags -/

section registration

variable {σ : Type}

/-- Field of the Context a registered flag stores its value in. -/
inductive Field where
  | agcMode | centerFreq | directSampling | freqCorrection | offsetTuning
  | sampleRate | testMode | tunerBandwidth | tunerGain | tunerGainMode
deriving DecidableEq, Repr

/-- Go `flag.Flag`: name, usage text, the variable the flag sets (`none` for a
variable outside the Context) and the default value as text, shown in the
usage message. -/
structure Flag where
  Name : String
  Usage : String
  Value : Option Field
  DefValue : String
deriving DecidableEq, Repr

/-- Go `flag.FlagSet`: its map `formal` from flag name to flag. -/
abbrev FlagSet := String → Option Flag

/-- Go `flag.Lookup(name)`: the flag of that name, `none` (nil) if absent. -/
def FlagSet.Lookup (fs : FlagSet) (name : String) : Option Flag := fs name

/-- Go `(*FlagSet).Var(value, name, usage)`: defines the flag with `DefValue`
set to `text`, the result of `value.String()` at the time of the call. Defining
a name twice panics (`none`). -/
def FlagSet.Var (fs : FlagSet) (value : Option Field) (text name usage : String) :
    Option FlagSet :=
  match fs.Lookup name with
  | some _ => none
  | none => some (fun n => if n = name then some ⟨name, usage, value, text⟩ else fs n)

/-- Go `Lookup(name).DefValue = text`: overwrites the default text of the flag;
dereferencing the nil result of a failed lookup panics (`none`). -/
def FlagSet.setDefValue (fs : FlagSet) (name text : String) : Option FlagSet :=
  match fs.Lookup name with
  | none => none
  | some f => some (fun n => if n = name then some { f with DefValue := text } else fs n)

/-- State of registration: the Context and the flag set. -/
abbrev Reg (σ : Type) := Context σ × FlagSet

/-- Go `flag.BoolVar(p, name, value, usage)`: stores `value` through the
pointer `p` (here the field update `set`) and defines the flag with the text of
`value` as default. -/
def BoolVar (set : Context σ → Bool → Context σ) (p : Field) (name : String) (value : Bool)
    (usage : String) (r : Reg σ) : Option (Reg σ) :=
  (r.2.Var (some p) (toString value) name usage).map (fun fs => (set r.1 value, fs))

/-- Go `flag.IntVar(p, name, value, usage)`. -/
def IntVar (set : Context σ → Int → Context σ) (p : Field) (name : String) (value : Int)
    (usage : String) (r : Reg σ) : Option (Reg σ) :=
  (r.2.Var (some p) (toString value) name usage).map (fun fs => (set r.1 value, fs))

/-- Go `flag.Float64Var(p, name, value, usage)`; `formatFloat` is the text Go
prints for a `float64`. -/
def Float64Var (formatFloat : ℚ → String) (set : Context σ → ℚ → Context σ) (p : Field)
    (name : String) (value : ℚ) (usage : String) (r : Reg σ) : Option (Reg σ) :=
  (r.2.Var (some p) (formatFloat value) name usage).map (fun fs => (set r.1 value, fs))

/-- Go `flag.Var(value, name, usage)` for a value held in the Context: the
variable is left as it is and `text`, its `String()`, becomes the default. -/
def Var (text : Context σ → String) (p : Field) (name usage : String) (r : Reg σ) :
    Option (Reg σ) :=
  (r.2.Var (some p) (text r.1) name usage).map (fun fs => (r.1, fs))

/-- Go `flag.Lookup(name).DefValue = text` as a registration step. -/
def setDefValue (name text : String) (r : Reg σ) : Option (Reg σ) :=
  (r.2.setDefValue name text).map (fun fs => (r.1, fs))

/-- Go `func (c *Context) RegisterFlags()` on the flag set `fs`, one step per
statement of the source: the Context and the flag set after the call, `none`
when a statement panics. `siString` is `si.ScientificNotation.String`. -/
def Context.RegisterFlags (siString formatFloat : ℚ → String) (c : Context σ)
    (fs : FlagSet) : Option (Context σ × FlagSet) :=
  BoolVar (fun c v => { c with agcMode := v }) .agcMode "agcmode" false "enable rtl2832u agc" (c, fs)
  >>= Var (fun c => siString c.centerFreq) .centerFreq "centerfreq" "center frequency to receive on"
  >>= setDefValue "centerfreq" "100M"
  >>= Var (fun c => c.directSampling.String) .directSampling "directsampling"
    "set sampling mode: none, inphase, quadrature"
  >>= setDefValue "directsampling" "none"
  >>= IntVar (fun c v => { c with freqCorrection := v }) .freqCorrection "freqcorrection" 0
    "frequency correction in ppm"
  >>= BoolVar (fun c v => { c with offsetTuning := v }) .offsetTuning "offsettuning" false
    "enable offset tuning"
  >>= Var (fun c => siString c.sampleRate) .sampleRate "samplerate" "sample rate"
  >>= setDefValue "samplerate" "2.4M"
  >>= BoolVar (fun c v => { c with testMode := v }) .testMode "testmode" false "enable test mode"
  >>= Var (fun c => siString c.tunerBandwidth) .tunerBandwidth "tunerbandwidth" "tuner bandwidth"
  >>= setDefValue "tunerbandwidth" "2.4M"
  >>= Float64Var formatFloat (fun c v => { c with tunerGain := .finite v }) .tunerGain "tunergain" 0
    "set tuner gain in dB"
  >>= BoolVar (fun c v => { c with tunerGainMode := v }) .tunerGainMode "tunergainmode" false
    "eanble manual gain"

/-- The empty flag set. -/
def FlagSet.empty : FlagSet := fun _ => none

/-- Text of a number's integer part, a stand-in for the number formatting of
the libraries in concrete runs. -/
def integerText (x : ℚ) : String := toString (truncToInt x)

end registration

/-- The Context of the scenario: AGC mode on, sample rate 3.2M. -/
def scenarioContext : Context Unit :=
  { Context.zero okRadio with agcMode := true, sampleRate := 3200000 }

/-- The Context holding a tuner gain of 1.5 dB. -/
def gainContext : Context Unit :=
  { Context.zero okRadio with tunerGain := .finite (3 / 2) }

/-- The Context after `-tunergain=0.3`: the gain is the `float64` nearest to
three tenths. -/
def parsedGainContext : Context Unit :=
  { Context.zero okRadio with tunerGain := round64 (((3 : Int) : ℚ) / 10) }

/-! ## Sequences of Set calls, visiting order and declarations -/

section ordering

variable {σ : Type}

/-- Spec-side reading of the three input spellings: the variant a text names
once lower-cased, `none` when it is none of the three names. -/
def variantOf (lower : String → String) (val : String) : Option SamplingMode :=
  if lower val = "none" then some SamplingNone
  else if lower val = "inphase" then some SamplingIADC
  else if lower val = "quadrature" then some SamplingQADC
  else none

/-- The receiver after a sequence of `Set` calls, one per text, in order; the
returned errors are dropped. -/
def setAll (lower quote : String → String) (s : SamplingMode) (texts : List String) :
    SamplingMode :=
  texts.foldl (fun r t => (SamplingMode.Set lower quote r t).1) s

/-- The four display labels `String` can return. -/
def displayLabels : List String := ["None", "In-Phase ADC", "Quadrature ADC", "Unknown"]

/-- The ten methods of the `Radio` interface, in the order of its declaration. -/
def radioMethods : List String :=
  ["SetAgcMode", "SetCenterFreq", "SetDirectSampling", "SetFreqCorrection", "SetOffsetTuning",
   "SetSampleRate", "SetTestMode", "SetTunerBw", "SetTunerGain", "SetTunerGainMode"]

/-- Go `sortFlags` of package `flag`, the order in which `flag.Visit` calls its
function: the names of the map `actual` of the flags that have been set,
ascending by name. -/
def sortFlags (actual : Finset String) : List String := actual.sort (· ≤ ·)

/-- The statements of `RegisterFlags` that declare a flag, in source order,
each with the name it declares; the override of the default text that follows
a `flag.Var` belongs to the step of that flag. -/
def declarations (siString formatFloat : ℚ → String) :
    List (String × (Reg σ → Option (Reg σ))) :=
  [("agcmode",
      BoolVar (fun c v => { c with agcMode := v }) .agcMode "agcmode" false "enable rtl2832u agc"),
   ("centerfreq", fun r =>
      Var (fun c => siString c.centerFreq) .centerFreq "centerfreq"
        "center frequency to receive on" r >>= setDefValue "centerfreq" "100M"),
   ("directsampling", fun r =>
      Var (fun c => c.directSampling.String) .directSampling "directsampling"
        "set sampling mode: none, inphase, quadrature" r >>= setDefValue "directsampling" "none"),
   ("freqcorrection",
      IntVar (fun c v => { c with freqCorrection := v }) .freqCorrection "freqcorrection" 0
        "frequency correction in ppm"),
   ("offsettuning",
      BoolVar (fun c v => { c with offsetTuning := v }) .offsetTuning "offsettuning" false
        "enable offset tuning"),
   ("samplerate", fun r =>
      Var (fun c => siString c.sampleRate) .sampleRate "samplerate" "sample rate" r
        >>= setDefValue "samplerate" "2.4M"),
   ("testmode",
      BoolVar (fun c v => { c with testMode := v }) .testMode "testmode" false "enable test mode"),
   ("tunerbandwidth", fun r =>
      Var (fun c => siString c.tunerBandwidth) .tunerBandwidth "tunerbandwidth"
        "tuner bandwidth" r >>= setDefValue "tunerbandwidth" "2.4M"),
   ("tunergain",
      Float64Var formatFloat (fun c v => { c with tunerGain := .finite v }) .tunerGain "tunergain" 0
        "set tuner gain in dB"),
   ("tunergainmode",
      BoolVar (fun c v => { c with tunerGainMode := v }) .tunerGainMode "tunergainmode" false
        "eanble manual gain")]

end ordering

end rtlflags

/-! ## Scientific-notation values -/

namespace si

/-- Modelled from the spec: the fixed table of SI multiplier suffixes of the
absent package `si`, as the power of ten each denotes: kilo, mega and giga,
each a power of 1000. Any other suffix character is unrecognised. -/
def suffixExponent (ch : Char) : Option Nat :=
  if ch = 'k' then some 3
  else if ch = 'M' then some 6
  else if ch = 'G' then some 9
  else none

/-- Modelled from the spec: the number written by a run of decimal digits of
the absent parser of package `si`; `none` when the run is empty or holds a
character that is not a digit. -/
def parseDigits (cs : List Char) : Option Nat :=
  if cs = [] then none
  else cs.foldlM (fun acc ch => if ch.isDigit then some (acc * 10 + (ch.toNat - 48)) else none) 0

/-- Modelled from the spec: the unsigned numeric portion, digits with an
optional decimal point, of the absent parser of package `si`, as the integer
written by all its digits together with the number of digits after the
point. -/
def parseUnsigned (cs : List Char) : Option (Nat × Nat) :=
  match cs.span (fun ch => ch ≠ '.') with
  | (whole, []) => (parseDigits whole).map (fun n => (n, 0))
  | (whole, _ :: frac) => (parseDigits (whole ++ frac)).map (fun n => (n, frac.length))

/-- Modelled from the spec: the numeric portion with its optional leading sign,
of the absent parser of package `si`. -/
def parseSigned (cs : List Char) : Option (Int × Nat) :=
  match cs with
  | '-' :: rest => (parseUnsigned rest).map (fun p => (-(p.1 : Int), p.2))
  | '+' :: rest => (parseUnsigned rest).map (fun p => ((p.1 : Int), p.2))
  | _ => (parseUnsigned cs).map (fun p => ((p.1 : Int), p.2))

/-- Modelled from the spec: the parts of a scientific-notation text read by the
absent `Parse` of package `si`: the signed integer written by the digits, the
number of digits after the decimal point, and the power of ten of the suffix
(0 without suffix). `none` is the error `InvalidFormat`: the numeric portion
does not parse or the suffix is unrecognised. -/
def parseParts (text : String) : Option (Int × Nat × Nat) :=
  match text.data.reverse with
  | [] => none
  | last :: front =>
    if last.isDigit ∨ last = '.' then
      (parseSigned text.data).map (fun p => (p.1, p.2, 0))
    else
      match suffixExponent last with
      | none => none
      | some e => (parseSigned front.reverse).map (fun p => (p.1, p.2, e))

/-- Modelled from the spec: `Parse(text)` of the absent package `si`, the value
the text denotes over exact arithmetic: the digits scaled down by the decimal
places and up by the suffix multiplier. -/
def Parse (text : String) : Option ScientificNotation :=
  (parseParts text).map (fun p => (p.1 : ℚ) * 10 ^ p.2.2 / 10 ^ p.2.1)

end si

namespace rtlflags

/-! ## Lemmas on HandleFlags -/

section lemmas

variable {σ : Type}

theorem truncToInt_intCast (t : Int) : truncToInt (t : ℚ) = t := by
  simp [truncToInt]

theorem truncToInt_of_nonneg (x : ℚ) (h : 0 ≤ x) : truncToInt x = ⌊x⌋ := by
  have hn : 0 ≤ x.num := Rat.num_nonneg.mpr h
  rw [Rat.floor_def]
  unfold truncToInt
  exact Int.tdiv_eq_ediv hn (Int.natCast_nonneg _)

theorem truncToInt_neg (x : ℚ) : truncToInt (-x) = - truncToInt x := by
  simp [truncToInt, Int.neg_tdiv]

theorem truncToInt_of_nonpos (x : ℚ) (h : x ≤ 0) : truncToInt x = ⌈x⌉ := by
  have h1 := truncToInt_of_nonneg (-x) (by linarith)
  rw [truncToInt_neg] at h1
  rw [Int.floor_neg] at h1
  linarith

theorem HandleFlags_eq_runCalls (c : Context σ) (visited : List String) (st : σ) :
    c.HandleFlags visited st = c.Radio.runCalls (visited.filterMap c.dispatch) st := by
  induction visited generalizing st with
  | nil => rfl
  | cons f fs ih =>
    cases hd : c.dispatch f with
    | none => simp [Context.HandleFlags, hd, ih]
    | some call =>
      simp only [Context.HandleFlags, hd, List.filterMap_cons, Radio.runCalls]
      rcases hinv : c.Radio.invoke call st with ⟨_ | err, st1⟩
      · simp [ih]
      · simp

theorem runCalls_calls_initial (r : Radio σ) (cs : List Call) (st : σ) :
    (r.runCalls cs st).calls <+: cs := by
  induction cs generalizing st with
  | nil => simp [Radio.runCalls]
  | cons call cs ih =>
    simp only [Radio.runCalls]
    rcases hinv : r.invoke call st with ⟨_ | err, st1⟩
    · simpa using ih st1
    · simp

theorem runCalls_returned (r : Radio σ) (cs : List Call) (st : σ)
    (h : (r.runCalls cs st).outcome = .returned) : (r.runCalls cs st).calls = cs := by
  induction cs generalizing st with
  | nil => simp [Radio.runCalls]
  | cons call cs ih =>
    simp only [Radio.runCalls] at h ⊢
    rcases hinv : r.invoke call st with ⟨_ | err, st1⟩
    · rw [hinv] at h
      simpa using ih st1 h
    · rw [hinv] at h
      simp at h

theorem runCalls_all_ok (r : Radio σ) (hok : ∀ call st, (r.invoke call st).1 = none)
    (cs : List Call) (st : σ) :
    (r.runCalls cs st).calls = cs ∧ (r.runCalls cs st).outcome = .returned := by
  induction cs generalizing st with
  | nil => simp [Radio.runCalls]
  | cons call cs ih =>
    simp only [Radio.runCalls]
    rcases hinv : r.invoke call st with ⟨e, st1⟩
    have he : e = none := by simpa [hinv] using hok call st
    subst he
    simpa using ih st1

theorem runCalls_append_fail (r : Radio σ) (pre post : List Call) (call : Call)
    (st st1 st2 : σ) (err : String)
    (hout : (r.runCalls pre st).outcome = .returned)
    (hst : (r.runCalls pre st).state = st1)
    (hinv : r.invoke call st1 = (some err, st2)) :
    r.runCalls (pre ++ call :: post) st = ⟨pre ++ [call], st2, .fatal err⟩ := by
  induction pre generalizing st with
  | nil =>
    simp only [Radio.runCalls] at hst
    subst hst
    simp [Radio.runCalls, hinv]
  | cons a pre ih =>
    simp only [Radio.runCalls, List.cons_append] at hout hst ⊢
    rcases ha : r.invoke a st with ⟨_ | e, sa⟩
    · rw [ha] at hout hst
      simp only at hout hst
      have h := ih sa hout hst
      simp only [List.append_eq] at h ⊢
      simp [h]
    · rw [ha] at hout
      simp at hout

theorem runCalls_fatal (r : Radio σ) (cs : List Call) (st : σ) (msg : String)
    (h : (r.runCalls cs st).outcome = .fatal msg) :
    ∃ pre call st1, (r.runCalls cs st).calls = pre ++ [call] ∧
      r.runCalls pre st = ⟨pre, st1, .returned⟩ ∧
      r.invoke call st1 = (some msg, (r.runCalls cs st).state) := by
  induction cs generalizing st with
  | nil => simp [Radio.runCalls] at h
  | cons a cs ih =>
    simp only [Radio.runCalls] at h ⊢
    rcases ha : r.invoke a st with ⟨_ | e, sa⟩
    · rw [ha] at h
      simp only at h
      obtain ⟨pre, call, st1, h1, h2, h3⟩ := ih sa h
      refine ⟨a :: pre, call, st1, ?_, ?_, ?_⟩
      · simp [h1]
      · simp [Radio.runCalls, ha, h2]
      · simpa using h3
    · rw [ha] at h
      simp only [Outcome.fatal.injEq] at h
      subst h
      exact ⟨[], a, st, by simp, by simp [Radio.runCalls], by simp [ha]⟩

theorem dispatch_cases (c : Context σ) (name : String) :
    (name ∈ flagNames ∧ c.dispatch name = c.expectedCall name ∧
      ∃ call, c.dispatch name = some call ∧ call.flag = name) ∨
    (name ∉ flagNames ∧ c.dispatch name = none) := by
  by_cases h1 : name = "agcmode"
  · subst h1; simp [Context.dispatch, Context.expectedCall, Context.expectedCalls, flagNames, Call.flag]
  by_cases h2 : name = "centerfreq"
  · subst h2; simp [Context.dispatch, Context.expectedCall, Context.expectedCalls, flagNames, Call.flag]
  by_cases h3 : name = "directsampling"
  · subst h3; simp [Context.dispatch, Context.expectedCall, Context.expectedCalls, flagNames, Call.flag]
  by_cases h4 : name = "freqcorrection"
  · subst h4; simp [Context.dispatch, Context.expectedCall, Context.expectedCalls, flagNames, Call.flag]
  by_cases h5 : name = "offsettuning"
  · subst h5; simp [Context.dispatch, Context.expectedCall, Context.expectedCalls, flagNames, Call.flag]
  by_cases h6 : name = "samplerate"
  · subst h6; simp [Context.dispatch, Context.expectedCall, Context.expectedCalls, flagNames, Call.flag]
  by_cases h7 : name = "testmode"
  · subst h7; simp [Context.dispatch, Context.expectedCall, Context.expectedCalls, flagNames, Call.flag]
  by_cases h8 : name = "tunerbandwidth"
  · subst h8; simp [Context.dispatch, Context.expectedCall, Context.expectedCalls, flagNames, Call.flag]
  by_cases h9 : name = "tunergain"
  · subst h9; simp [Context.dispatch, Context.expectedCall, Context.expectedCalls, flagNames, Call.flag]
  by_cases h10 : name = "tunergainmode"
  · subst h10; simp [Context.dispatch, Context.expectedCall, Context.expectedCalls, flagNames, Call.flag]
  right
  simp [Context.dispatch, flagNames, h1, h2, h3, h4, h5, h6, h7, h8, h9, h10]

theorem expectedCall_of_not_mem (c : Context σ) (name : String) (h : name ∉ flagNames) :
    c.expectedCall name = none := by
  simp only [flagNames, List.mem_cons, List.mem_singleton, List.not_mem_nil, or_false, not_or] at h
  obtain ⟨h1, h2, h3, h4, h5, h6, h7, h8, h9, h10⟩ := h
  simp [Context.expectedCall, Context.expectedCalls, List.find?_cons, Ne.symm h1, Ne.symm h2,
    Ne.symm h3, Ne.symm h4, Ne.symm h5, Ne.symm h6, Ne.symm h7, Ne.symm h8, Ne.symm h9,
    Ne.symm h10]

theorem dispatch_eq_expectedCall (c : Context σ) (name : String) :
    c.dispatch name = c.expectedCall name := by
  rcases dispatch_cases c name with ⟨_, h, _⟩ | ⟨hn, h⟩
  · exact h
  · rw [h, expectedCall_of_not_mem c name hn]

theorem dispatch_isSome_iff (c : Context σ) (name : String) :
    (c.dispatch name).isSome ↔ name ∈ flagNames := by
  rcases dispatch_cases c name with ⟨hm, _, call, h, _⟩ | ⟨hn, h⟩
  · simp [h, hm]
  · simp [h, hn]

theorem dispatch_flag (c : Context σ) (f : String) (a : Call)
    (hf : c.dispatch f = some a) : a.flag = f := by
  rcases dispatch_cases c f with ⟨_, _, call, h, hfl⟩ | ⟨_, h⟩
  · rw [h] at hf
    cases hf
    exact hfl
  · rw [h] at hf
    cases hf

theorem method_flag (a b : Call) (h : a.method = b.method) : a.flag = b.flag := by
  cases a <;> cases b <;> first | rfl | (exfalso; revert h; simp [Call.method])

theorem dispatch_method_inj (c : Context σ) (f g : String) (a b : Call)
    (hf : c.dispatch f = some a) (hg : c.dispatch g = some b)
    (hm : a.method = b.method) : f = g := by
  rw [← dispatch_flag c f a hf, ← dispatch_flag c g b hg]
  exact method_flag a b hm
theorem HandleFlags_calls_initial (c : Context σ) (visited : List String) (st : σ) :
    (c.HandleFlags visited st).calls <+: visited.filterMap c.dispatch := by
  rw [HandleFlags_eq_runCalls]
  exact runCalls_calls_initial _ _ _

theorem HandleFlags_call_visited (c : Context σ) (visited : List String) (st : σ)
    (call : Call) (h : call ∈ (c.HandleFlags visited st).calls) :
    ∃ f ∈ visited, c.dispatch f = some call := by
  have hmem := (HandleFlags_calls_initial c visited st).subset h
  simpa [List.mem_filterMap] using hmem

theorem HandleFlags_returned (c : Context σ) (visited : List String) (st : σ)
    (h : (c.HandleFlags visited st).outcome = .returned) :
    (c.HandleFlags visited st).calls = visited.filterMap c.dispatch := by
  rw [HandleFlags_eq_runCalls] at h ⊢
  exact runCalls_returned _ _ _ h

theorem dispatch_tunergain (c : Context σ) :
    c.dispatch "tunergain" = some (.SetTunerGain (c.tunerGain.mul (.finite 10)).toInt) := by
  simp [Context.dispatch]

theorem Set_fst_eq (lower quote : String → String) (s : SamplingMode) (val : String) :
    (SamplingMode.Set lower quote s val).1 = (variantOf lower val).getD s := by
  unfold SamplingMode.Set variantOf
  by_cases h1 : lower val = "none"
  · simp [h1]
  by_cases h2 : lower val = "inphase"
  · simp [h1, h2]
  by_cases h3 : lower val = "quadrature"
  · simp [h1, h2, h3]
  simp [h1, h2, h3]

theorem variantOf_mem (lower : String → String) (val : String) (v : SamplingMode)
    (h : variantOf lower val = some v) :
    v = SamplingNone ∨ v = SamplingIADC ∨ v = SamplingQADC := by
  unfold variantOf at h
  by_cases h1 : lower val = "none"
  · simp [h1] at h; exact Or.inl h.symm
  by_cases h2 : lower val = "inphase"
  · simp [h1, h2] at h; exact Or.inr (Or.inl h.symm)
  by_cases h3 : lower val = "quadrature"
  · simp [h1, h2, h3] at h; exact Or.inr (Or.inr h.symm)
  simp [h1, h2, h3] at h

theorem setAll_eq (lower quote : String → String) (s : SamplingMode) (texts : List String) :
    setAll lower quote s texts = ((texts.filterMap (variantOf lower)).getLast?).getD s := by
  induction texts generalizing s with
  | nil => rfl
  | cons t ts ih =>
    simp only [setAll, List.foldl_cons] at ih ⊢
    rw [ih, Set_fst_eq, List.filterMap_cons]
    cases hv : variantOf lower t with
    | none => simp
    | some v => simp [List.getLast?_cons]

theorem String_ne_None (v : SamplingMode) (h : v ≠ SamplingNone) :
    v.String = "In-Phase ADC" ∨ v.String = "Quadrature ADC" ∨ v.String = "Unknown" := by
  by_cases b : v = SamplingIADC
  · subst b; exact Or.inl (by decide)
  by_cases d : v = SamplingQADC
  · subst d; exact Or.inr (Or.inl (by decide))
  exact Or.inr (Or.inr (by simp only [SamplingMode.String, if_neg h, if_neg b, if_neg d]))

theorem flagNames_sorted : flagNames.Sorted (· < ·) := by
  simp [flagNames, List.Sorted]
  decide

theorem sortFlags_eq_filter (actual : Finset String) (h : ∀ n ∈ actual, n ∈ flagNames) :
    sortFlags actual = flagNames.filter (fun n => n ∈ actual) := by
  apply List.eq_of_perm_of_sorted (r := (· ≤ ·))
  · apply (List.perm_ext_iff_of_nodup (Finset.sort_nodup _ _) ?_).mpr
    · intro a
      simp only [sortFlags, Finset.mem_sort, List.mem_filter, decide_eq_true_eq]
      exact ⟨fun ha => ⟨h a ha, ha⟩, fun ha => ha.2⟩
    · exact List.Nodup.filter _ (by decide)
  · exact Finset.sort_sorted _ _
  · apply List.Sorted.filter
    exact flagNames_sorted.imp (fun h => le_of_lt h)

theorem RegisterFlags_eq_declarations (siString formatFloat : ℚ → String) (c : Context σ)
    (fs : FlagSet) :
    c.RegisterFlags siString formatFloat fs =
      (declarations siString formatFloat).foldlM (fun r d => d.2 r) (c, fs) := by
  simp only [Context.RegisterFlags, declarations, List.foldlM, bind_assoc, bind_pure]

theorem isSome_ite_some {α : Type} (p : Prop) [Decidable p] (x : α) (y : Option α) :
    (if p then some x else y).isSome = true ↔ (p ∨ y.isSome = true) := by
  by_cases h : p <;> simp [h]

theorem declarations_define (siString formatFloat : ℚ → String)
    (d : String × (Reg σ → Option (Reg σ))) (hd : d ∈ declarations siString formatFloat)
    (r : Reg σ) (hfresh : r.2.Lookup d.1 = none) :
    ∃ r1, d.2 r = some r1 ∧ ∀ n, (r1.2.Lookup n).isSome ↔ (n = d.1 ∨ (r.2.Lookup n).isSome) := by
  simp only [declarations, List.mem_cons, List.mem_singleton, List.not_mem_nil, or_false] at hd
  simp only [FlagSet.Lookup] at hfresh ⊢
  rcases hd with rfl | rfl | rfl | rfl | rfl | rfl | rfl | rfl | rfl | rfl <;>
    simp only at hfresh <;>
    simp [BoolVar, Var, IntVar, Float64Var, setDefValue, FlagSet.Var, FlagSet.setDefValue,
      FlagSet.Lookup, hfresh, isSome_ite_some]

theorem RegisterFlags_defines (siString formatFloat : ℚ → String) (c : Context σ)
    (fs : FlagSet) (hfresh : ∀ n ∈ flagNames, fs.Lookup n = none) :
    ∃ c1 fs1, c.RegisterFlags siString formatFloat fs = some (c1, fs1) ∧
      ∀ n, (fs1.Lookup n).isSome ↔ (n ∈ flagNames ∨ (fs.Lookup n).isSome) := by
  simp only [flagNames, List.mem_cons, List.mem_singleton, List.not_mem_nil, or_false,
    forall_eq_or_imp, forall_eq, FlagSet.Lookup] at hfresh
  obtain ⟨h1, h2, h3, h4, h5, h6, h7, h8, h9, h10⟩ := hfresh
  simp [Context.RegisterFlags, BoolVar, Var, IntVar, Float64Var, setDefValue, FlagSet.Var,
    FlagSet.setDefValue, FlagSet.Lookup, h1, h2, h3, h4, h5, h6, h7, h8, h9, h10]
  refine ⟨_, _, ⟨rfl, rfl⟩, ?_⟩
  intro n
  simp only [isSome_ite_some, flagNames, List.mem_cons, List.mem_singleton, List.not_mem_nil,
    or_false]
  tauto
theorem AsInteger_Parse_parts (text : String) (m : Int) (d e : Nat)
    (h : si.parseParts text = some (m, d, e)) (hde : d ≤ e) :
    (si.Parse text).map si.AsInteger = some (m * 10 ^ (e - d)) := by
  have hq : (m : ℚ) * 10 ^ e / 10 ^ d = ((m * 10 ^ (e - d) : Int) : ℚ) := by
    obtain ⟨k, rfl⟩ := Nat.exists_eq_add_of_le hde
    rw [Nat.add_sub_cancel_left, pow_add]
    push_cast
    field_simp
    ring
  simp only [si.Parse, h, Option.map_some', si.AsInteger, hq, truncToInt_intCast]

theorem runCalls_append_returned (r : Radio σ) (pre cs : List Call) (st : σ)
    (hout : (r.runCalls pre st).outcome = .returned) :
    (r.runCalls (pre ++ cs) st).calls =
      pre ++ (r.runCalls cs (r.runCalls pre st).state).calls := by
  induction pre generalizing st with
  | nil => simp [Radio.runCalls]
  | cons a pre ih =>
    simp only [Radio.runCalls, List.cons_append] at hout ⊢
    rcases ha : r.invoke a st with ⟨_ | e, sa⟩
    · rw [ha] at hout
      simp only at hout
      have h := ih sa hout
      simp only [List.append_eq] at h ⊢
      simp [h]
    · rw [ha] at hout
      simp at hout

theorem HandleFlags_call_after_returned (c : Context σ) (pre post : List String) (f : String)
    (call : Call) (st : σ) (hout : (c.HandleFlags pre st).outcome = .returned)
    (hf : c.dispatch f = some call) :
    ∃ rest, (c.HandleFlags (pre ++ f :: post) st).calls =
      (c.HandleFlags pre st).calls ++ call :: rest := by
  have hcalls := HandleFlags_returned c pre st hout
  rw [HandleFlags_eq_runCalls] at hout
  rw [HandleFlags_eq_runCalls, List.filterMap_append, List.filterMap_cons, hf,
    runCalls_append_returned _ _ _ _ hout, hcalls]
  simp only [Radio.runCalls]
  rcases c.Radio.invoke call (c.Radio.runCalls (pre.filterMap c.dispatch) st).state with
    ⟨_ | e, s1⟩
  · exact ⟨_, rfl⟩
  · exact ⟨[], rfl⟩

theorem HandleFlags_single (c : Context σ) (f : String) (call : Call) (st : σ)
    (hf : c.dispatch f = some call) : (c.HandleFlags [f] st).calls = [call] := by
  simp only [Context.HandleFlags, hf]
  rcases c.Radio.invoke call st with ⟨_ | e, s1⟩ <;> rfl

theorem roundHalfEven_add_of_lt (n : Int) (r : ℚ) (h : |r| < 1 / 2) :
    roundHalfEven (n + r) = n := by
  unfold roundHalfEven
  rw [abs_lt] at h
  by_cases hr : 0 ≤ r
  · have hf : ⌊(n : ℚ) + r⌋ = n := by
      rw [Int.floor_eq_iff]; constructor <;> linarith [h.2]
    simp only [hf]
    rw [if_pos (by linarith [h.2])]
  · push_neg at hr
    have hf : ⌊(n : ℚ) + r⌋ = n - 1 := by
      rw [Int.floor_eq_iff]; push_cast; constructor <;> linarith [h.1]
    simp only [hf]
    push_cast
    rw [if_neg (by linarith [h.1]), if_pos (by linarith [h.1])]
    ring

theorem roundHalfEven_add_of_even (n : Int) (hn : n % 2 = 0) (r : ℚ) (h : |r| ≤ 1 / 2) :
    roundHalfEven (n + r) = n := by
  rcases lt_or_eq_of_le h with h1 | h1
  · exact roundHalfEven_add_of_lt n r h1
  · unfold roundHalfEven
    rcases abs_eq (by norm_num : (0:ℚ) ≤ 1/2) |>.mp h1 with hr | hr
    · have hf : ⌊(n : ℚ) + r⌋ = n := by
        rw [Int.floor_eq_iff]; constructor <;> linarith
      simp only [hf]
      rw [if_neg (by linarith), if_neg (by linarith), if_pos hn]
    · have hf : ⌊(n : ℚ) + r⌋ = n - 1 := by
        rw [Int.floor_eq_iff]; push_cast; constructor <;> linarith
      simp only [hf]
      push_cast
      rw [if_neg (by linarith), if_neg (by linarith), if_neg (by omega)]
      ring

theorem roundHalfEven_intCast (n : Int) : roundHalfEven (n : ℚ) = n := by
  have := roundHalfEven_add_of_lt n 0 (by norm_num)
  simpa using this

theorem abs_roundHalfEven_sub_le (x : ℚ) : |(roundHalfEven x : ℚ) - x| ≤ 1 / 2 := by
  unfold roundHalfEven
  have h1 := Int.floor_le x
  have h2 := Int.lt_floor_add_one x
  rw [abs_le]
  by_cases a : x - ⌊x⌋ < 1 / 2
  · rw [if_pos a]; constructor <;> linarith
  · rw [if_neg a]
    by_cases b : 1 / 2 < x - ⌊x⌋
    · rw [if_pos b]; push_cast; constructor <;> linarith
    · rw [if_neg b]
      by_cases c : ⌊x⌋ % 2 = 0
      · rw [if_pos c]; constructor <;> linarith
      · rw [if_neg c]; push_cast; constructor <;> linarith

theorem log_two_eq (r : ℚ) (k : Int) (hr : 0 < r) (hlo : 2 ^ k ≤ r) (hhi : r < 2 ^ (k + 1)) :
    Int.log 2 r = k := by
  have h1 : k ≤ Int.log 2 r := (Int.zpow_le_iff_le_log (by norm_num) hr).mp (by simpa using hlo)
  have h2 : Int.log 2 r < k + 1 := (Int.lt_zpow_iff_log_lt (by norm_num) hr).mp (by simpa using hhi)
  omega

theorem round64_pos_eq (y : ℚ) (k n : Int) (hy : 0 < y) (hlo : 2 ^ k ≤ y)
    (hhi : y < 2 ^ (k + 1)) (hk : -1022 ≤ k)
    (hn : roundHalfEven (y / 2 ^ (k - 52)) = n)
    (hsmall : (n : ℚ) * 2 ^ (k - 52) < 2 ^ 1024) :
    round64 y = .finite (n * 2 ^ (k - 52)) := by
  have hlog := log_two_eq y k hy hlo hhi
  have hu : ulpExponent |y| = k - 52 := by
    rw [abs_of_pos hy, ulpExponent, hlog]
    exact max_eq_left (by omega)
  unfold round64
  rw [hu, abs_of_pos hy, hn, if_neg (not_le.mpr hsmall), if_neg (not_lt.mpr hy.le)]

theorem round64_of_isFloat64 (q : ℚ) (h : isFloat64 q) : round64 q = .finite q := by
  obtain ⟨m, e, hm, he1, he2, rfl⟩ := h
  by_cases hm0 : m = 0
  · subst hm0
    simp [round64, roundHalfEven]
  have h2pos : ∀ z : Int, (0 : ℚ) < 2 ^ z := fun z => zpow_pos (by norm_num) z
  have ha : |(m : ℚ) * 2 ^ e| = (|m| : Int) * 2 ^ e := by
    rw [abs_mul, abs_of_pos (h2pos e)]; push_cast; rfl
  have hmpos : (0 : ℚ) < (|m| : Int) := by exact_mod_cast abs_pos.mpr hm0
  have hapos : (0 : ℚ) < (|m| : Int) * 2 ^ e := mul_pos hmpos (h2pos e)
  have hmlt : ((|m| : Int) : ℚ) < 2 ^ (53 : Int) := by
    calc ((|m| : Int) : ℚ) < ((2 ^ 53 : Int) : ℚ) := by exact_mod_cast hm
      _ = 2 ^ (53 : Int) := by norm_num
  have halt : ((|m| : Int) : ℚ) * 2 ^ e < 2 ^ (53 + e) := by
    rw [zpow_add₀ (by norm_num : (2 : ℚ) ≠ 0)]
    exact mul_lt_mul_of_pos_right hmlt (h2pos e)
  have hE : ulpExponent ((|m| : Int) * 2 ^ e : ℚ) ≤ e := by
    unfold ulpExponent
    have : Int.log 2 (((|m| : Int) : ℚ) * 2 ^ e) < 53 + e :=
      (Int.lt_zpow_iff_log_lt (by norm_num) hapos).mp (by simpa using halt)
    exact max_le (by omega) he1
  obtain ⟨d, hd⟩ := Int.eq_ofNat_of_zero_le (sub_nonneg.mpr hE)
  have hdiv : ((|m| : Int) : ℚ) * 2 ^ e / 2 ^ ulpExponent ((|m| : Int) * 2 ^ e : ℚ) =
      ((|m| * 2 ^ d : Int) : ℚ) := by
    rw [mul_div_assoc, ← zpow_sub₀ (by norm_num : (2 : ℚ) ≠ 0), hd, zpow_natCast]
    push_cast
    rfl
  have hback : ((|m| * 2 ^ d : Int) : ℚ) * 2 ^ ulpExponent ((|m| : Int) * 2 ^ e : ℚ) =
      ((|m| : Int) : ℚ) * 2 ^ e := by
    rw [← hdiv]
    field_simp
  have hover : ¬ (2 : ℚ) ^ 1024 ≤ ((|m| : Int) : ℚ) * 2 ^ e := by
    rw [not_le]
    calc ((|m| : Int) : ℚ) * 2 ^ e < 2 ^ (53 + e) := halt
      _ ≤ 2 ^ (1024 : Int) := zpow_le_zpow_right₀ (by norm_num) (by omega)
      _ = 2 ^ 1024 := by norm_num
  unfold round64
  rw [ha, hdiv, roundHalfEven_intCast, hback, if_neg hover]
  by_cases hneg : (m : ℚ) * 2 ^ e < 0
  · rw [if_pos hneg, ← ha, abs_of_neg hneg, neg_neg]
  · rw [if_neg hneg, ← ha, abs_of_nonneg (not_lt.mp hneg)]

theorem two_zpow_sub (a j : ℕ) (z : Int) (hz : z = a - j) :
    (2 : ℚ) ^ z = 2 ^ a / 2 ^ j := by
  subst hz
  rw [zpow_sub₀ (by norm_num : (2 : ℚ) ≠ 0), zpow_natCast, zpow_natCast]

theorem round64_tenths_pos (t : Int) (ht0 : 0 < t) (ht : t < 2 ^ 52) :
    ∃ g : ℚ, 0 < g ∧ round64 ((t : ℚ) / 10) = .finite g ∧ round64 (g * 10) = .finite t := by
  have hx : (0 : ℚ) < (t : ℚ) / 10 := by positivity
  have ht1 : (1 : ℚ) ≤ t := by exact_mod_cast ht0
  have ht2 : (t : ℚ) < 2 ^ 52 := by exact_mod_cast ht
  have hlo := Int.zpow_log_le_self (b := 2) (by norm_num) hx
  have hhi := Int.lt_zpow_succ_log_self (b := 2) (by norm_num) ((t : ℚ) / 10)
  simp only [Nat.cast_ofNat] at hlo hhi
  have hL1 : -4 ≤ Int.log 2 ((t : ℚ) / 10) := by
    apply (Int.zpow_le_iff_le_log (by norm_num) hx).mp
    norm_num
    linarith
  have hL2 : Int.log 2 ((t : ℚ) / 10) < 49 := by
    apply (Int.lt_zpow_iff_log_lt (by norm_num) hx).mp
    norm_num
    linarith
  generalize Int.log 2 ((t : ℚ) / 10) = L at hlo hhi hL1 hL2
  obtain ⟨j, hj⟩ := Int.eq_ofNat_of_zero_le (show (0 : Int) ≤ 52 - L by omega)
  have hj4 : 4 ≤ j := by omega
  have hj56 : j ≤ 56 := by omega
  have hP : (0 : ℚ) < 2 ^ j := by positivity
  have hP1 : (1 : ℚ) ≤ 2 ^ j := one_le_pow₀ (by norm_num)
  -- the integer scaled value
  obtain ⟨i, hi⟩ : ∃ i : ℕ, j = i + 4 := ⟨j - 4, by omega⟩
  have hM16 : (t * 2 ^ j) % 16 = 0 := by
    rw [hi, pow_add]
    have : t * (2 ^ i * 2 ^ 4) = 16 * (t * 2 ^ i) := by ring
    rw [this]
    exact Int.mul_emod_right 16 _
  have hMq : ((t * 2 ^ j : Int) : ℚ) = t * 2 ^ j := by push_cast; rfl
  have hu : (2 : ℚ) ^ (L - 52) = 1 / 2 ^ j := by
    rw [two_zpow_sub 0 j (L - 52) (by push_cast; omega)]; norm_num
  have hxu : (t : ℚ) / 10 / 2 ^ (L - 52) = ((t * 2 ^ j : Int) : ℚ) / 10 := by
    rw [hu, hMq]; field_simp
  -- bounds on M
  have hMlo : (10 : ℚ) * 2 ^ 52 ≤ ((t * 2 ^ j : Int) : ℚ) := by
    rw [two_zpow_sub 52 j L (by push_cast; omega)] at hlo
    rw [hMq]
    rw [div_le_div_iff₀ hP (by norm_num)] at hlo
    linarith
  have hMhi : ((t * 2 ^ j : Int) : ℚ) < 10 * 2 ^ 53 := by
    rw [two_zpow_sub 53 j (L + 1) (by push_cast; omega)] at hhi
    rw [hMq]
    rw [div_lt_div_iff₀ (by norm_num) hP] at hhi
    linarith
  obtain ⟨q, hq⟩ : ∃ q : Int, t * 2 ^ j = 16 * q := ⟨t * 2 ^ j / 16, by omega⟩
  rw [hq] at hxu hMlo hMhi
  have hqt : (t : ℚ) = (16 * q : Int) / 2 ^ j := by
    rw [← hq, hMq]; field_simp
  have hN := abs_roundHalfEven_sub_le (((16 * q : Int) : ℚ) / 10)
  generalize hNdef : roundHalfEven (((16 * q : Int) : ℚ) / 10) = N at hN
  rw [abs_le] at hN
  have hd1 : -5 ≤ 10 * N - 16 * q := by
    have : ((-5 : Int) : ℚ) ≤ ((10 * N - 16 * q : Int) : ℚ) := by push_cast at hN ⊢; linarith
    exact_mod_cast this
  have hd2 : 10 * N - 16 * q ≤ 5 := by
    have : ((10 * N - 16 * q : Int) : ℚ) ≤ ((5 : Int) : ℚ) := by push_cast at hN ⊢; linarith
    exact_mod_cast this
  have hq1 : (10 : Int) * 2 ^ 52 ≤ 16 * q := by exact_mod_cast hMlo
  have hq2 : 16 * q < (10 : Int) * 2 ^ 53 := by exact_mod_cast hMhi
  norm_num at hq1 hq2
  have hNq : (N : ℚ) = ((16 * q : Int) : ℚ) / 10 + ((10 * N - 16 * q : Int) : ℚ) / 10 := by
    push_cast; ring
  generalize hδ : 10 * N - 16 * q = δ at hd1 hd2 hNq
  have hδ4 : -4 ≤ δ ∧ δ ≤ 4 := by omega
  have hNpos : 0 ≤ N := by omega
  have hN54 : N < 2 ^ 54 := by norm_num; omega
  have hg : round64 ((t : ℚ) / 10) = .finite (N * 2 ^ (L - 52)) := by
    refine round64_pos_eq _ L N hx hlo hhi (by omega) (by rw [hxu, hNdef]) ?_
    rw [hu]
    calc (N : ℚ) * (1 / 2 ^ j) ≤ N := by
          rw [mul_one_div]
          exact div_le_self (by exact_mod_cast hNpos) hP1
      _ < ((2 ^ 54 : Int) : ℚ) := by exact_mod_cast hN54
      _ < 2 ^ 1024 := by norm_num
  have hNpos1 : 0 < N := by omega
  refine ⟨_, mul_pos (by exact_mod_cast hNpos1) (zpow_pos (by norm_num) _), hg, ?_⟩
  have hy : (N : ℚ) * 2 ^ (L - 52) * 10 = ((10 * N : Int) : ℚ) / 2 ^ j := by
    rw [hu]; push_cast; field_simp; ring
  have hKq : ((10 * N : Int) : ℚ) = ((16 * q : Int) : ℚ) + (δ : ℚ) := by
    rw [← hδ]; push_cast; ring
  have hδq : -4 ≤ (δ : ℚ) ∧ (δ : ℚ) ≤ 4 := by
    constructor <;> [exact_mod_cast hδ4.1; exact_mod_cast hδ4.2]
  rw [hy]
  have hypos : (0 : ℚ) < ((10 * N : Int) : ℚ) / 2 ^ j := by
    apply div_pos _ hP
    have : (0 : Int) < 10 * N := by omega
    exact_mod_cast this
  by_cases hK : 10 * N < 2 ^ 56
  · have h55 : (2 : Int) ^ 55 ≤ 10 * N := by norm_num; omega
    have hres := round64_pos_eq (((10 * N : Int) : ℚ) / 2 ^ j) (L + 3) (2 * q) hypos
      (by rw [two_zpow_sub 55 j (L + 3) (by push_cast; omega)]
          exact div_le_div_of_nonneg_right (by exact_mod_cast h55) hP.le)
      (by rw [two_zpow_sub 56 j (L + 3 + 1) (by push_cast; omega)]
          exact div_lt_div_of_pos_right (by exact_mod_cast hK) hP)
      (by omega)
      (by rw [two_zpow_sub 3 j (L + 3 - 52) (by push_cast; omega)]
          have e : ((10 * N : Int) : ℚ) / 2 ^ j / (2 ^ 3 / 2 ^ j) =
              ((2 * q : Int) : ℚ) + (δ : ℚ) / 8 := by
            rw [hKq]; push_cast; field_simp; ring
          rw [e]
          exact roundHalfEven_add_of_even (2 * q) (by omega) _
            (by rw [abs_le]; constructor <;> linarith [hδq.1, hδq.2]))
      (by rw [two_zpow_sub 3 j (L + 3 - 52) (by push_cast; omega)]
          have e : ((2 * q : Int) : ℚ) * (2 ^ 3 / 2 ^ j) = (t : ℚ) := by
            rw [hqt]; push_cast; field_simp; ring
          rw [e]
          calc (t : ℚ) < 2 ^ 52 := ht2
            _ < 2 ^ 1024 := by norm_num)
    rw [hres, two_zpow_sub 3 j (L + 3 - 52) (by push_cast; omega)]
    congr 1
    rw [hqt]; push_cast; field_simp; ring
  · have h56 : (2 : Int) ^ 56 ≤ 10 * N := by omega
    have h57 : 10 * N < (2 : Int) ^ 57 := by norm_num; omega
    have hres := round64_pos_eq (((10 * N : Int) : ℚ) / 2 ^ j) (L + 4) q hypos
      (by rw [two_zpow_sub 56 j (L + 4) (by push_cast; omega)]
          exact div_le_div_of_nonneg_right (by exact_mod_cast h56) hP.le)
      (by rw [two_zpow_sub 57 j (L + 4 + 1) (by push_cast; omega)]
          exact div_lt_div_of_pos_right (by exact_mod_cast h57) hP)
      (by omega)
      (by rw [two_zpow_sub 4 j (L + 4 - 52) (by push_cast; omega)]
          have e : ((10 * N : Int) : ℚ) / 2 ^ j / (2 ^ 4 / 2 ^ j) =
              ((q : Int) : ℚ) + (δ : ℚ) / 16 := by
            rw [hKq]; push_cast; field_simp; ring
          rw [e]
          exact roundHalfEven_add_of_lt q _
            (by rw [abs_lt]; constructor <;> linarith [hδq.1, hδq.2]))
      (by rw [two_zpow_sub 4 j (L + 4 - 52) (by push_cast; omega)]
          have e : ((q : Int) : ℚ) * (2 ^ 4 / 2 ^ j) = (t : ℚ) := by
            rw [hqt]; push_cast; field_simp; ring
          rw [e]
          calc (t : ℚ) < 2 ^ 52 := ht2
            _ < 2 ^ 1024 := by norm_num)
    rw [hres, two_zpow_sub 4 j (L + 4 - 52) (by push_cast; omega)]
    congr 1
    rw [hqt]; push_cast; field_simp; ring

theorem round64_neg_of_pos (y r : ℚ) (hy : 0 < y) (h : round64 y = .finite r) :
    round64 (-y) = .finite (-r) := by
  unfold round64 at h ⊢
  rw [abs_neg]
  by_cases ho : (2 : ℚ) ^ 1024 ≤
      (roundHalfEven (|y| / 2 ^ ulpExponent |y|) : ℚ) * 2 ^ ulpExponent |y|
  · rw [if_pos ho] at h
    cases h
  · rw [if_neg ho, if_neg (not_lt.mpr hy.le)] at h
    rw [if_neg ho, if_pos (by linarith)]
    cases h
    rfl

theorem isFloat64_intCast (t : Int) (ht : |t| < 2 ^ 53) : isFloat64 (t : ℚ) :=
  ⟨t, 0, ht, by norm_num, by norm_num, by simp⟩

theorem mul_round64_tenths (t : Int) (ht : |t| < 2 ^ 52) :
    (round64 ((t : ℚ) / 10)).mul (.finite 10) = .finite t := by
  rw [abs_lt] at ht
  rcases lt_trichotomy t 0 with hneg | hzero | hpos
  · obtain ⟨g, hg0, hg, hprod⟩ := round64_tenths_pos (-t) (by omega) (by omega)
    have hx : (0 : ℚ) < ((-t : Int) : ℚ) / 10 := by
      have : (0 : ℚ) < ((-t : Int) : ℚ) := by exact_mod_cast (by omega : (0 : Int) < -t)
      positivity
    have h1 := round64_neg_of_pos _ g hx hg
    have h2 := round64_neg_of_pos _ _ (by positivity : (0 : ℚ) < g * 10) hprod
    have e1 : -(((-t : Int) : ℚ) / 10) = (t : ℚ) / 10 := by push_cast; ring
    have e2 : -(g * 10) = -g * 10 := by ring
    have e3 : -(((-t : Int) : ℚ)) = (t : ℚ) := by push_cast; ring
    rw [e1] at h1
    rw [e2, e3] at h2
    rw [h1]
    exact h2
  · subst hzero
    have h0 : round64 (0 : ℚ) = .finite 0 := round64_of_isFloat64 0 ⟨0, 0, by norm_num, by norm_num, by norm_num, by simp⟩
    simp only [Int.cast_zero, zero_div, h0, Float64.mul, zero_mul]
  · obtain ⟨g, _, hg, hprod⟩ := round64_tenths_pos t hpos ht.2
    rw [hg]
    exact hprod

theorem toInt_finite_of_fits (q : ℚ) (h1 : -2 ^ 63 ≤ truncToInt q) (h2 : truncToInt q < 2 ^ 63) :
    (Float64.finite q).toInt = truncToInt q := by
  simp only [Float64.toInt]
  rw [if_pos ⟨h1, h2⟩]

theorem toInt_finite_intCast (t : Int) (ht : |t| < 2 ^ 53) :
    (Float64.finite (t : ℚ)).toInt = t := by
  have e : truncToInt (t : ℚ) = t := truncToInt_intCast t
  rw [abs_lt] at ht
  rw [toInt_finite_of_fits _ (by rw [e]; omega) (by rw [e]; omega), e]

end lemmas

/-! ## Claims -/

section claims

variable {σ : Type}

/-- C1: HandleFlags invokes a Radio setter only for visited flags. Every call
it makes is the call selected by some visited flag name; for each of the ten
registered names that is not visited, the setter of that name is invoked zero
times; with an empty visited list no call is made at all. -/
theorem HandleFlags_only_visited (c : Context σ) (visited : List String) (st : σ) :
    (∀ call ∈ (c.HandleFlags visited st).calls, ∃ f ∈ visited, c.dispatch f = some call) ∧
    (∀ name ∈ flagNames, name ∉ visited →
      ∃ call0, c.dispatch name = some call0 ∧
        (c.HandleFlags visited st).calls.countP (fun k => k.method = call0.method) = 0) ∧
    (c.HandleFlags [] st).calls = [] := by
  refine ⟨HandleFlags_call_visited c visited st, ?_, rfl⟩
  intro name hname hnot
  obtain ⟨call0, h0⟩ := Option.isSome_iff_exists.mp ((dispatch_isSome_iff c name).mpr hname)
  refine ⟨call0, h0, ?_⟩
  rw [List.countP_eq_zero]
  intro k hk hm
  obtain ⟨f, hf, hd⟩ := HandleFlags_call_visited c visited st k hk
  have hm' : k.method = call0.method := by simpa using hm
  have : f = name := dispatch_method_inj c f name k call0 hd h0 hm'
  exact hnot (this ▸ hf)

theorem HandleFlags_only_visited_witness :
    "testmode" ∈ flagNames ∧ "testmode" ∉ ["agcmode", "samplerate"] ∧
    ((Context.zero okRadio).HandleFlags ["agcmode", "samplerate"] ()).calls.countP
      (fun k => k.method = "SetTestMode") = 0 := by
  refine ⟨by simp [flagNames], by simp, ?_⟩
  obtain ⟨call0, h0, hc⟩ :=
    (HandleFlags_only_visited (Context.zero okRadio) ["agcmode", "samplerate"] ()).2.1
      "testmode" (by simp [flagNames]) (by simp)
  have : call0 = .SetTestMode false := by
    simpa [Context.dispatch, Context.zero, eq_comm] using h0
  subst this
  simpa [Call.method] using hc

/-- C2: when every visited name is one of the ten registered names and the
setters of the Radio all succeed, the calls made by HandleFlags are the visited
list mapped, element by element, to the expected call of each name on the
Context's current field value: same length, same order, one call per flag, and
the run returns. -/
theorem HandleFlags_calls_of_all_ok (c : Context σ) (visited : List String) (st : σ)
    (hreg : ∀ f ∈ visited, f ∈ flagNames)
    (hok : ∀ call s, (c.Radio.invoke call s).1 = none) :
    (c.HandleFlags visited st).calls.map some = visited.map c.expectedCall ∧
    (c.HandleFlags visited st).calls.length = visited.length ∧
    (c.HandleFlags visited st).outcome = .returned := by
  have hrun := runCalls_all_ok c.Radio hok (visited.filterMap c.dispatch) st
  rw [← HandleFlags_eq_runCalls] at hrun
  have hmap : (visited.filterMap c.dispatch).map some = visited.map c.expectedCall := by
    clear hrun
    induction visited with
    | nil => rfl
    | cons f fs ih =>
      have hf : f ∈ flagNames := hreg f (List.mem_cons_self _ _)
      obtain ⟨call, hcall⟩ := Option.isSome_iff_exists.mp ((dispatch_isSome_iff c f).mpr hf)
      have ih' := ih (fun g hg => hreg g (List.mem_cons_of_mem _ hg))
      simp [List.filterMap_cons, hcall, ih', ← dispatch_eq_expectedCall, hcall]
  refine ⟨by rw [hrun.1, hmap], ?_, hrun.2⟩
  have := congrArg List.length (hrun.1 ▸ hmap)
  simpa using this

theorem HandleFlags_calls_of_all_ok_witness :
    (scenarioContext.HandleFlags ["agcmode", "samplerate"] ()).calls =
      [.SetAgcMode true, .SetSampleRate 3200000] ∧
    (scenarioContext.HandleFlags ["agcmode", "samplerate"] ()).outcome = .returned := by
  have h := HandleFlags_calls_of_all_ok scenarioContext ["agcmode", "samplerate"] ()
    (by simp [flagNames])
    (by intro call s; cases call <;> rfl)
  refine ⟨?_, h.2.2⟩
  have h1 := h.1
  simp only [List.map_cons, List.map_nil, Context.expectedCall, Context.expectedCalls] at h1
  have e : truncToInt (3200000 : ℚ) = 3200000 := truncToInt_intCast 3200000
  simp [List.find?_cons, scenarioContext, Context.zero, e] at h1
  exact List.map_injective_iff.mpr (Option.some_injective _) (by simpa using h1)

/-- C3: if the setters of the flags `pre` all succeed, leaving the device in
state `st1`, and the setter of the next visited flag `f` returns an error, then
HandleFlags makes exactly the calls of `pre` followed by the call of `f`, in
order and once each, makes no call for any flag of `post`, ends in the abort
outcome with that error, and leaves the device in the state the failed call
left: the earlier calls are not undone. -/
theorem HandleFlags_stops_at_first_error (c : Context σ) (pre post : List String)
    (f : String) (call : Call) (st st1 st2 : σ) (err : String)
    (hout : (c.HandleFlags pre st).outcome = .returned)
    (hst : (c.HandleFlags pre st).state = st1)
    (hf : c.dispatch f = some call)
    (hinv : c.Radio.invoke call st1 = (some err, st2)) :
    c.HandleFlags (pre ++ f :: post) st =
      ⟨(c.HandleFlags pre st).calls ++ [call], st2, .fatal err⟩ ∧
    (c.HandleFlags (pre ++ f :: post) st).calls = (pre ++ [f]).filterMap c.dispatch ∧
    (c.HandleFlags (pre ++ f :: post) st).calls.length =
      (c.HandleFlags pre st).calls.length + 1 := by
  have hcalls := HandleFlags_returned c pre st hout
  rw [HandleFlags_eq_runCalls] at hout hst
  have h := runCalls_append_fail c.Radio (pre.filterMap c.dispatch) (post.filterMap c.dispatch)
    call st st1 st2 err hout hst hinv
  have hrun : c.HandleFlags (pre ++ f :: post) st =
      ⟨(c.HandleFlags pre st).calls ++ [call], st2, .fatal err⟩ := by
    rw [HandleFlags_eq_runCalls, List.filterMap_append, List.filterMap_cons, hf, h, hcalls]
  refine ⟨hrun, ?_, ?_⟩
  · rw [hrun, hcalls]
    simp [List.filterMap_append, hf]
  · rw [hrun]
    simp

theorem HandleFlags_stops_at_first_error_witness :
    (Context.zero (mockRadio ["SetCenterFreq"])).HandleFlags
        ["agcmode", "centerfreq", "testmode"] [] =
      ⟨[.SetAgcMode false, .SetCenterFreq 0], [.SetAgcMode false], .fatal "rejected"⟩ := by
  have h := (HandleFlags_stops_at_first_error (Context.zero (mockRadio ["SetCenterFreq"]))
    ["agcmode"] ["testmode"] "centerfreq" (.SetCenterFreq 0) [] [.SetAgcMode false]
    [.SetAgcMode false] "rejected"
    (by simp [Context.HandleFlags, Context.dispatch, Radio.invoke, mockRadio, mockSetter,
      Context.zero, Call.method])
    (by simp [Context.HandleFlags, Context.dispatch, Radio.invoke, mockRadio, mockSetter,
      Context.zero, Call.method])
    (by simp [Context.dispatch, Context.zero, si.AsInteger, truncToInt])
    (by simp [Radio.invoke, mockRadio, mockSetter, Context.zero, Call.method])).1
  simpa [Context.HandleFlags, Context.dispatch, Radio.invoke, mockRadio, mockSetter,
      Context.zero, Call.method] using h

/-- C4: every SetTunerGain call HandleFlags makes passes the Context's tuner
gain multiplied by 10, as a `float64` product, and converted to `int`; the call
is made whenever the run reaches the tunergain flag. For a product the 64-bit
`int` can hold the conversion is truncation toward zero, the floor of a product
that is not negative and the ceiling of one that is not positive. A gain with
at most one decimal digit that the Context holds exactly, `t / 10`, has the
exact product `t` and dispatches `SetTunerGain t`; so does the gain the
`float64` nearest to `t / 10`, which is what parsing the decimal text of such
a gain stores. -/
theorem HandleFlags_tunergain_tenths (c : Context σ) (visited : List String) (st : σ) :
    (∀ n, Call.SetTunerGain n ∈ (c.HandleFlags visited st).calls →
      n = (c.tunerGain.mul (.finite 10)).toInt) ∧
    ("tunergain" ∈ visited → (c.HandleFlags visited st).outcome = .returned →
      Call.SetTunerGain (c.tunerGain.mul (.finite 10)).toInt ∈
        (c.HandleFlags visited st).calls) ∧
    (c.HandleFlags ["tunergain"] st).calls =
      [.SetTunerGain (c.tunerGain.mul (.finite 10)).toInt] ∧
    (∀ pre post, (c.HandleFlags pre st).outcome = .returned →
      ∃ rest, (c.HandleFlags (pre ++ "tunergain" :: post) st).calls =
        (c.HandleFlags pre st).calls ++
          Call.SetTunerGain (c.tunerGain.mul (.finite 10)).toInt :: rest) ∧
    (∀ g p, c.tunerGain = .finite g → round64 (g * 10) = .finite p →
      -2 ^ 63 ≤ truncToInt p → truncToInt p < 2 ^ 63 →
      (c.tunerGain.mul (.finite 10)).toInt = truncToInt p ∧
      (0 ≤ p → truncToInt p = ⌊p⌋) ∧ (p ≤ 0 → truncToInt p = ⌈p⌉)) ∧
    (∀ g, c.tunerGain = .finite g → isFloat64 (g * 10) →
      c.tunerGain.mul (.finite 10) = .finite (g * 10)) ∧
    (∀ t : Int, |t| < 2 ^ 53 → isFloat64 ((t : ℚ) / 10) →
      c.tunerGain = .finite ((t : ℚ) / 10) →
      (c.tunerGain.mul (.finite 10)).toInt = t) ∧
    (∀ t : Int, |t| < 2 ^ 52 → c.tunerGain = round64 ((t : ℚ) / 10) →
      (c.tunerGain.mul (.finite 10)).toInt = t) := by
  refine ⟨?_, ?_, HandleFlags_single c _ _ st (dispatch_tunergain c), ?_, ?_, ?_, ?_, ?_⟩
  · intro n hn
    obtain ⟨f, _, hd⟩ := HandleFlags_call_visited c visited st _ hn
    have hf : f = "tunergain" := (dispatch_flag c f _ hd).symm
    subst hf
    rw [dispatch_tunergain] at hd
    simpa [eq_comm] using hd
  · intro hv hret
    rw [HandleFlags_returned c visited st hret, List.mem_filterMap]
    exact ⟨"tunergain", hv, dispatch_tunergain c⟩
  · intro pre post hout
    exact HandleFlags_call_after_returned c pre post "tunergain" _ st hout (dispatch_tunergain c)
  · intro g p hg hp h1 h2
    refine ⟨?_, truncToInt_of_nonneg p, truncToInt_of_nonpos p⟩
    rw [hg]
    simp only [Float64.mul]
    rw [hp, toInt_finite_of_fits p h1 h2]
  · intro g hg hrep
    rw [hg]
    simp only [Float64.mul]
    exact round64_of_isFloat64 _ hrep
  · intro t ht _ hg
    have e : (t : ℚ) / 10 * 10 = (t : ℚ) := by field_simp
    rw [hg]
    simp only [Float64.mul]
    rw [e, round64_of_isFloat64 _ (isFloat64_intCast t ht), toInt_finite_intCast t ht]
  · intro t ht hg
    have ht53 : |t| < 2 ^ 53 := lt_trans ht (by norm_num)
    rw [hg, mul_round64_tenths t ht, toInt_finite_intCast t ht53]

theorem HandleFlags_tunergain_tenths_witness :
    (gainContext.HandleFlags ["tunergain"] ()).calls = [.SetTunerGain 15] ∧
    (parsedGainContext.HandleFlags ["tunergain"] ()).calls = [.SetTunerGain 3] := by
  have hrep : isFloat64 (((15 : Int) : ℚ) / 10) :=
    ⟨3, -1, by norm_num, by norm_num, by norm_num, by norm_num⟩
  have hg : gainContext.tunerGain = .finite (((15 : Int) : ℚ) / 10) := by
    simp only [gainContext, Context.zero]; norm_num
  have h := HandleFlags_tunergain_tenths gainContext ["tunergain"] ()
  have k := HandleFlags_tunergain_tenths parsedGainContext ["tunergain"] ()
  constructor
  · rw [h.2.2.1, h.2.2.2.2.2.2.1 15 (by norm_num) hrep hg]
  · rw [k.2.2.1, k.2.2.2.2.2.2.2 3 (by norm_num) (by simp [parsedGainContext])]

/-- C5: whenever the lower-cased input equals `none`, `inphase` or
`quadrature`, the receiver after Set is SamplingNone, SamplingIADC or
SamplingQADC respectively, for every prior value of the receiver and whatever
error Set returns. -/
theorem Set_matching_name (lower quote : String → String) (s : SamplingMode) (val : String) :
    (lower val = "none" → (SamplingMode.Set lower quote s val).1 = SamplingNone) ∧
    (lower val = "inphase" → (SamplingMode.Set lower quote s val).1 = SamplingIADC) ∧
    (lower val = "quadrature" → (SamplingMode.Set lower quote s val).1 = SamplingQADC) := by
  refine ⟨?_, ?_, ?_⟩ <;> intro h <;> simp [SamplingMode.Set, h]

theorem Set_matching_name_witness :
    (SamplingMode.Set asciiToLower asciiQuote SamplingUnknown "NONE").1 = SamplingNone ∧
    (SamplingMode.Set asciiToLower asciiQuote SamplingNone "InPhase").1 = SamplingIADC ∧
    (SamplingMode.Set asciiToLower asciiQuote SamplingNone "QUADRATURE").1 = SamplingQADC :=
  ⟨(Set_matching_name asciiToLower asciiQuote SamplingUnknown "NONE").1 (by decide),
   (Set_matching_name asciiToLower asciiQuote SamplingNone "InPhase").2.1 (by decide),
   (Set_matching_name asciiToLower asciiQuote SamplingNone "QUADRATURE").2.2 (by decide)⟩

/-- C6: when the lower-cased input is none of `none`, `inphase`, `quadrature`,
Set leaves the receiver at its prior value and returns the error whose text is
`invalid sampling mode: ` followed by the quoted form of the original input,
not of its lower-cased form. -/
theorem Set_no_match (lower quote : String → String) (s : SamplingMode) (val : String)
    (h1 : lower val ≠ "none") (h2 : lower val ≠ "inphase") (h3 : lower val ≠ "quadrature") :
    SamplingMode.Set lower quote s val = (s, some ("invalid sampling mode: " ++ quote val)) := by
  simp [SamplingMode.Set, h1, h2, h3]

theorem Set_no_match_witness :
    SamplingMode.Set asciiToLower asciiQuote SamplingQADC "bogus" =
      (SamplingQADC, some "invalid sampling mode: \"bogus\"") :=
  Set_no_match asciiToLower asciiQuote SamplingQADC "bogus" (by decide) (by decide) (by decide)

/-- C7: the code at the input `none`, which matches the first of the three
names: Set updates the receiver to SamplingNone and still returns the non-nil
error `invalid sampling mode: "none"`. -/
theorem Set_none_returns_error :
    SamplingMode.Set asciiToLower asciiQuote SamplingUnknown "none" =
      (SamplingNone, some "invalid sampling mode: \"none\"") := by
  decide

/-- C8 (as amended): the abort message is exactly the error the failing setter
returned. When a run ends in the abort outcome with message `msg`, its last
call is a setter call that returned the error `msg`, made on the state the
earlier, successful calls left; and a visited flag whose setter fails with
`err` aborts with the message `err`, whichever flag it is, so nothing in the
message names the flag. -/
theorem HandleFlags_fatal_is_setter_error (c : Context σ) (st : σ) :
    (∀ visited msg, (c.HandleFlags visited st).outcome = .fatal msg →
      ∃ pre call st1, (c.HandleFlags visited st).calls = pre ++ [call] ∧
        c.Radio.runCalls pre st = ⟨pre, st1, .returned⟩ ∧
        c.Radio.invoke call st1 = (some msg, (c.HandleFlags visited st).state)) ∧
    (∀ f call err st1, c.dispatch f = some call →
      c.Radio.invoke call st = (some err, st1) →
      c.HandleFlags [f] st = ⟨[call], st1, .fatal err⟩) := by
  constructor
  · intro visited msg h
    rw [HandleFlags_eq_runCalls] at h ⊢
    exact runCalls_fatal _ _ _ _ h
  · intro f call err st1 hf hinv
    simp [Context.HandleFlags, hf, hinv]

theorem HandleFlags_fatal_is_setter_error_witness :
    (Context.zero (mockRadio ["SetAgcMode", "SetTestMode"])).HandleFlags ["testmode"] [] =
      ⟨[.SetTestMode false], [], .fatal "rejected"⟩ :=
  (HandleFlags_fatal_is_setter_error (Context.zero (mockRadio ["SetAgcMode", "SetTestMode"]))
    []).2 "testmode" (.SetTestMode false) "rejected" []
    (by simp [Context.dispatch, Context.zero])
    (by simp [Radio.invoke, mockRadio, mockSetter, Call.method, Context.zero])

/-- C8, counterexample to the claim as stated: on a radio whose SetAgcMode and
SetTestMode both fail with the error `rejected`, a run visiting agcmode and a
run visiting testmode abort with the same message, so the message does not
tell the two properties apart. -/
theorem HandleFlags_fatal_message_same_for_two_flags :
    ("agcmode" : String) ≠ "testmode" ∧
    ((Context.zero (mockRadio ["SetAgcMode", "SetTestMode"])).HandleFlags ["agcmode"]
      []).outcome = .fatal "rejected" ∧
    ((Context.zero (mockRadio ["SetAgcMode", "SetTestMode"])).HandleFlags ["testmode"]
      []).outcome = .fatal "rejected" := by
  refine ⟨by decide, ?_, ?_⟩ <;>
    simp [Context.HandleFlags, Context.dispatch, Radio.invoke, mockRadio, mockSetter,
      Context.zero, Call.method]

/-- C9: on a flag set in which none of the ten names is defined yet,
RegisterFlags returns, the flags centerfreq, samplerate, tunerbandwidth and
directsampling then carry the default texts `100M`, `2.4M`, `2.4M` and `none`
with name, usage and variable as registered, and the Context fields centerFreq,
sampleRate, tunerBandwidth and directSampling hold the value they had before
registration. -/
theorem RegisterFlags_display_defaults (siString formatFloat : ℚ → String) (c : Context σ)
    (fs : FlagSet) (hfresh : ∀ n ∈ flagNames, fs.Lookup n = none) :
    ∃ c1 fs1, c.RegisterFlags siString formatFloat fs = some (c1, fs1) ∧
      fs1.Lookup "centerfreq" =
        some ⟨"centerfreq", "center frequency to receive on", some .centerFreq, "100M"⟩ ∧
      fs1.Lookup "samplerate" = some ⟨"samplerate", "sample rate", some .sampleRate, "2.4M"⟩ ∧
      fs1.Lookup "tunerbandwidth" =
        some ⟨"tunerbandwidth", "tuner bandwidth", some .tunerBandwidth, "2.4M"⟩ ∧
      fs1.Lookup "directsampling" =
        some ⟨"directsampling", "set sampling mode: none, inphase, quadrature",
          some .directSampling, "none"⟩ ∧
      c1.centerFreq = c.centerFreq ∧ c1.sampleRate = c.sampleRate ∧
      c1.tunerBandwidth = c.tunerBandwidth ∧ c1.directSampling = c.directSampling := by
  simp only [flagNames, List.mem_cons, List.mem_singleton, List.not_mem_nil, or_false,
    forall_eq_or_imp, forall_eq, FlagSet.Lookup] at hfresh
  obtain ⟨h1, h2, h3, h4, h5, h6, h7, h8, h9, h10⟩ := hfresh
  simp [Context.RegisterFlags, BoolVar, Var, IntVar, Float64Var, setDefValue, FlagSet.Var,
    FlagSet.setDefValue, FlagSet.Lookup, h1, h2, h3, h4, h5, h6, h7, h8, h9, h10]
  exact ⟨_, _, ⟨rfl, rfl⟩, by simp, by simp, by simp, by simp, rfl, rfl, rfl, rfl⟩

theorem RegisterFlags_display_defaults_witness :
    ∃ c1 fs1, (Context.zero okRadio).RegisterFlags integerText integerText FlagSet.empty =
        some (c1, fs1) ∧
      (fs1.Lookup "centerfreq").map (fun f => f.DefValue) = some "100M" ∧
      (fs1.Lookup "samplerate").map (fun f => f.DefValue) = some "2.4M" ∧
      (fs1.Lookup "tunerbandwidth").map (fun f => f.DefValue) = some "2.4M" ∧
      (fs1.Lookup "directsampling").map (fun f => f.DefValue) = some "none" ∧
      c1.centerFreq = 0 ∧ c1.sampleRate = 0 ∧ c1.tunerBandwidth = 0 ∧
      c1.directSampling = SamplingNone := by
  obtain ⟨c1, fs1, h, a1, a2, a3, a4, b1, b2, b3, b4⟩ :=
    RegisterFlags_display_defaults integerText integerText (Context.zero okRadio)
      FlagSet.empty (fun _ _ => rfl)
  exact ⟨c1, fs1, h, by rw [a1]; rfl, by rw [a2]; rfl, by rw [a3]; rfl, by rw [a4]; rfl,
    b1, b2, b3, b4⟩

/-- C10: String returns `None`, `In-Phase ADC` and `Quadrature ADC` for
SamplingNone, SamplingIADC and SamplingQADC, and `Unknown` for SamplingUnknown
and for every other integer value, negative or above 3; it is total and its
result is always one of these four texts. -/
theorem String_labels (s : SamplingMode) :
    SamplingNone.String = "None" ∧ SamplingIADC.String = "In-Phase ADC" ∧
    SamplingQADC.String = "Quadrature ADC" ∧ SamplingUnknown.String = "Unknown" ∧
    (s.val ≠ 0 → s.val ≠ 1 → s.val ≠ 2 → s.String = "Unknown") ∧
    (s.String = "None" ∨ s.String = "In-Phase ADC" ∨ s.String = "Quadrature ADC" ∨
      s.String = "Unknown") := by
  refine ⟨by decide, by decide, by decide, by decide, ?_, ?_⟩
  · intro h0 h1 h2
    obtain ⟨v⟩ := s
    simp only at h0 h1 h2
    simp [SamplingMode.String, SamplingNone, SamplingIADC, SamplingQADC, h0, h1, h2]
  · by_cases a : s = SamplingNone
    · subst a; exact Or.inl (by decide)
    by_cases b : s = SamplingIADC
    · subst b; exact Or.inr (Or.inl (by decide))
    by_cases d : s = SamplingQADC
    · subst d; exact Or.inr (Or.inr (Or.inl (by decide)))
    exact Or.inr (Or.inr (Or.inr (by simp only [SamplingMode.String, if_neg a, if_neg b, if_neg d])))

theorem String_labels_witness :
    (SamplingMode.mk (-1)).String = "Unknown" ∧ (SamplingMode.mk 7).String = "Unknown" :=
  ⟨(String_labels ⟨-1⟩).2.2.2.2.1 (by decide) (by decide) (by decide),
   (String_labels ⟨7⟩).2.2.2.2.1 (by decide) (by decide) (by decide)⟩

/-- C11 (as amended): for every variant other than SamplingNone the text
returned by String is not a spelling Set recognises: lower-cased it is none of
the three names and Set on it leaves the receiver unchanged. The label `None`
of SamplingNone is recognised, since it lower-cases to `none`, and Set on it
makes the receiver SamplingNone. Stated for every lower-casing function that
agrees with ASCII lower-casing on the four labels, as `strings.ToLower`
does. -/
theorem String_label_not_parseable (lower quote : String → String)
    (hl : ∀ t ∈ displayLabels, lower t = asciiToLower t) (s v : SamplingMode) :
    (v ≠ SamplingNone → variantOf lower v.String = none ∧
      (SamplingMode.Set lower quote s v.String).1 = s) ∧
    variantOf lower SamplingNone.String = some SamplingNone ∧
    (SamplingMode.Set lower quote s SamplingNone.String).1 = SamplingNone := by
  have h1 : lower "In-Phase ADC" = "in-phase adc" := by
    rw [hl _ (by simp [displayLabels])]; decide
  have h2 : lower "Quadrature ADC" = "quadrature adc" := by
    rw [hl _ (by simp [displayLabels])]; decide
  have h3 : lower "Unknown" = "unknown" := by
    rw [hl _ (by simp [displayLabels])]; decide
  have h0 : lower "None" = "none" := by
    rw [hl _ (by simp [displayLabels])]; decide
  have hN : SamplingNone.String = "None" := by decide
  have hvN : variantOf lower SamplingNone.String = some SamplingNone := by
    simp [hN, variantOf, h0]
  refine ⟨?_, hvN, by rw [Set_fst_eq, hvN]; rfl⟩
  intro hv
  have hnone : variantOf lower v.String = none := by
    rcases String_ne_None v hv with h | h | h <;> rw [h] <;> simp [variantOf, h1, h2, h3]
  exact ⟨hnone, by rw [Set_fst_eq, hnone]; rfl⟩

theorem String_label_not_parseable_witness :
    variantOf asciiToLower SamplingIADC.String = none ∧
    (SamplingMode.Set asciiToLower asciiQuote SamplingQADC SamplingIADC.String).1 =
      SamplingQADC :=
  (String_label_not_parseable asciiToLower asciiQuote (fun _ _ => rfl) SamplingQADC
    SamplingIADC).1 (by decide)

/-- C11, counterexample to the claim as stated: the label of SamplingNone is
`None`, which lower-cases to the input spelling `none`; Set on it matches and
changes a receiver that held SamplingQADC to SamplingNone. -/
theorem String_label_None_is_parseable :
    SamplingNone.String = "None" ∧ asciiToLower SamplingNone.String = "none" ∧
    (SamplingMode.Set asciiToLower asciiQuote SamplingQADC SamplingNone.String).1 =
      SamplingNone ∧
    SamplingNone ≠ SamplingQADC := by
  decide

/-- C12: the names declared by the statements of RegisterFlags, in source
order, are the ten names of `flagNames`, each statement defining the name it is
listed with; this list is strictly ascending and without duplicates. Hence for
every set of set flags drawn from the ten names, the ascending order in which
`flag.Visit` yields them is the declaration order restricted to that set, and
HandleFlags runs on them in that order. -/
theorem flagNames_declared_ascending (siString formatFloat : ℚ → String) (c : Context σ)
    (actual : Finset String) (st : σ) :
    (declarations siString formatFloat :
      List (String × (Reg σ → Option (Reg σ)))).map Prod.fst = flagNames ∧
    (∀ fs, c.RegisterFlags siString formatFloat fs =
      (declarations siString formatFloat).foldlM (fun r d => d.2 r) (c, fs)) ∧
    (∀ d ∈ (declarations siString formatFloat : List (String × (Reg σ → Option (Reg σ)))),
      ∀ r : Reg σ, r.2.Lookup d.1 = none →
        ∃ r1, d.2 r = some r1 ∧
          ∀ n, (r1.2.Lookup n).isSome ↔ (n = d.1 ∨ (r.2.Lookup n).isSome)) ∧
    flagNames.Sorted (· < ·) ∧ flagNames.Nodup ∧
    ((∀ n ∈ actual, n ∈ flagNames) →
      sortFlags actual = flagNames.filter (fun n => n ∈ actual) ∧
      c.HandleFlags (sortFlags actual) st =
        c.HandleFlags (flagNames.filter (fun n => n ∈ actual)) st) := by
  refine ⟨rfl, RegisterFlags_eq_declarations siString formatFloat c,
    fun d hd r hr => declarations_define siString formatFloat d hd r hr,
    flagNames_sorted, by decide, ?_⟩
  intro h
  have hs := sortFlags_eq_filter actual h
  exact ⟨hs, by rw [hs]⟩

theorem flagNames_declared_ascending_witness :
    sortFlags {"samplerate", "agcmode"} = ["agcmode", "samplerate"] ∧
    (scenarioContext.HandleFlags (sortFlags {"samplerate", "agcmode"}) ()).calls =
      [.SetAgcMode true, .SetSampleRate 3200000] := by
  have h := (flagNames_declared_ascending integerText integerText scenarioContext
    {"samplerate", "agcmode"} ()).2.2.2.2.2 (by simp [flagNames])
  have hf : flagNames.filter (fun n => n ∈ ({"samplerate", "agcmode"} : Finset String)) =
      ["agcmode", "samplerate"] := by
    simp [flagNames, List.filter_cons]
  rw [hf] at h
  refine ⟨h.1, ?_⟩
  rw [h.1]
  have e : truncToInt (3200000 : ℚ) = 3200000 := truncToInt_intCast 3200000
  simp [Context.HandleFlags, Context.dispatch, Radio.invoke, okRadio, scenarioContext,
    Context.zero, si.AsInteger, e]

/-- C13: over the parser modelled from the spec and exact arithmetic, parsing
a valid text and coercing the value to an integer gives the exact magnitude:
`2.4M` gives 2400000, `100k` gives 100000, `1G` gives 1000000000 and `0` gives
0; in general digits `m` with `d` decimal places and a suffix of `e` powers of
ten, `d ≤ e`, give `m * 10 ^ (e - d)`. The coercion is the conversion
HandleFlags applies to centerFreq, sampleRate and tunerBandwidth. -/
theorem Parse_AsInteger_exact (c : Context σ) :
    (si.Parse "2.4M").map si.AsInteger = some 2400000 ∧
    (si.Parse "100k").map si.AsInteger = some 100000 ∧
    (si.Parse "1G").map si.AsInteger = some 1000000000 ∧
    (si.Parse "0").map si.AsInteger = some 0 ∧
    (∀ text m d e, si.parseParts text = some (m, d, e) → d ≤ e →
      (si.Parse text).map si.AsInteger = some (m * 10 ^ (e - d))) ∧
    c.dispatch "centerfreq" = some (.SetCenterFreq (si.AsInteger c.centerFreq)) ∧
    c.dispatch "samplerate" = some (.SetSampleRate (si.AsInteger c.sampleRate)) ∧
    c.dispatch "tunerbandwidth" = some (.SetTunerBw (si.AsInteger c.tunerBandwidth)) := by
  refine ⟨?_, ?_, ?_, ?_, AsInteger_Parse_parts, ?_, ?_, ?_⟩
  · exact AsInteger_Parse_parts "2.4M" 24 1 6 (by decide) (by decide)
  · exact AsInteger_Parse_parts "100k" 100 0 3 (by decide) (by decide)
  · exact AsInteger_Parse_parts "1G" 1 0 9 (by decide) (by decide)
  · exact AsInteger_Parse_parts "0" 0 0 0 (by decide) (by decide)
  · simp [Context.dispatch, si.AsInteger]
  · simp [Context.dispatch, si.AsInteger]
  · simp [Context.dispatch, si.AsInteger]

theorem Parse_AsInteger_exact_witness :
    si.parseParts "3.2M" = some (32, 1, 6) ∧
    (si.Parse "3.2M").map si.AsInteger = some 3200000 :=
  ⟨by decide,
   (Parse_AsInteger_exact (Context.zero okRadio)).2.2.2.2.1 "3.2M" 32 1 6 (by decide)
     (by decide)⟩

/-- C14: Set returns a non-nil error for every input and every receiver: the
error is always `invalid sampling mode: ` followed by the quoted input, also
when the input matched a name and the receiver was updated; no input makes
Set return nil. -/
theorem Set_always_returns_error (lower quote : String → String) (s : SamplingMode)
    (val : String) :
    (SamplingMode.Set lower quote s val).2 = some ("invalid sampling mode: " ++ quote val) ∧
    (SamplingMode.Set lower quote s val).2 ≠ none ∧
    ¬ ∃ text, (SamplingMode.Set lower quote s text).2 = none := by
  refine ⟨rfl, by simp [SamplingMode.Set], ?_⟩
  rintro ⟨text, h⟩
  simp [SamplingMode.Set] at h

/-- C15: the switch of HandleFlags is a bijection between the ten registered
flag names and the ten methods of Radio. A name has a case exactly when it is
one of the ten names; the ten names, in order, select the ten methods of the
interface, in order, so agcmode selects SetAgcMode and so on down to
tunergainmode and SetTunerGainMode; both lists are free of duplicates, no two
names select the same method and every method is selected by some name. On a
flag set holding none of them, RegisterFlags defines exactly these ten
names. -/
theorem dispatch_bijection (siString formatFloat : ℚ → String) (c : Context σ)
    (fs : FlagSet) :
    (∀ name, (c.dispatch name).isSome ↔ name ∈ flagNames) ∧
    flagNames.map (fun n => (c.dispatch n).map Call.method) = radioMethods.map some ∧
    flagNames.Nodup ∧ radioMethods.Nodup ∧
    flagNames.length = 10 ∧ radioMethods.length = 10 ∧
    (∀ call : Call, call.method ∈ radioMethods) ∧
    (∀ f g a b, c.dispatch f = some a → c.dispatch g = some b → a.method = b.method →
      f = g) ∧
    (∀ call : Call, ∃ name ∈ flagNames, ∃ call1,
      c.dispatch name = some call1 ∧ call1.method = call.method) ∧
    ((∀ n ∈ flagNames, fs.Lookup n = none) →
      ∃ c1 fs1, c.RegisterFlags siString formatFloat fs = some (c1, fs1) ∧
        ∀ n, (fs1.Lookup n).isSome ↔ (n ∈ flagNames ∨ (fs.Lookup n).isSome)) := by
  refine ⟨dispatch_isSome_iff c, ?_, by decide, by decide, rfl, rfl, ?_,
    dispatch_method_inj c, ?_, RegisterFlags_defines siString formatFloat c fs⟩
  · simp [flagNames, radioMethods, Context.dispatch, Call.method]
  · intro call
    cases call <;> simp [Call.method, radioMethods]
  · intro call
    cases call <;> simp [Context.dispatch, flagNames, Call.method]

theorem dispatch_bijection_witness :
    ∃ c1 fs1, (Context.zero okRadio).RegisterFlags integerText integerText FlagSet.empty =
        some (c1, fs1) ∧
      ∀ n, (fs1.Lookup n).isSome ↔ (n ∈ flagNames ∨ (FlagSet.empty.Lookup n).isSome) :=
  (dispatch_bijection integerText integerText (Context.zero okRadio) FlagSet.empty).2.2.2.2.2.2.2.2.2
    (fun _ _ => rfl)
/-- C16: the codes of SamplingNone, SamplingIADC, SamplingQADC and
SamplingUnknown are 0, 1, 2 and 3, pairwise distinct. When the directsampling
flag is visited HandleFlags calls SetDirectSampling with the code of the
Context's directSampling, unchanged: a run on that flag alone makes exactly
this call, a run that has passed the flags before it makes this call next,
and no SetDirectSampling call of any run carries another value. After Set on
a text that lower-cases to `none`, `inphase` or `quadrature` the call made is
SetDirectSampling with 0, 1 or 2. -/
theorem directsampling_code (lower quote : String → String) (c : Context σ)
    (visited : List String) (st : σ) (s : SamplingMode) (val : String) :
    SamplingNone.val = 0 ∧ SamplingIADC.val = 1 ∧ SamplingQADC.val = 2 ∧
    SamplingUnknown.val = 3 ∧
    [SamplingNone, SamplingIADC, SamplingQADC, SamplingUnknown].Pairwise (· ≠ ·) ∧
    c.dispatch "directsampling" = some (.SetDirectSampling c.directSampling.val) ∧
    (c.HandleFlags ["directsampling"] st).calls =
      [.SetDirectSampling c.directSampling.val] ∧
    (∀ pre post, (c.HandleFlags pre st).outcome = .returned →
      ∃ rest, (c.HandleFlags (pre ++ "directsampling" :: post) st).calls =
        (c.HandleFlags pre st).calls ++
          Call.SetDirectSampling c.directSampling.val :: rest) ∧
    (∀ n, Call.SetDirectSampling n ∈ (c.HandleFlags visited st).calls →
      n = c.directSampling.val) ∧
    ("directsampling" ∈ visited → (c.HandleFlags visited st).outcome = .returned →
      Call.SetDirectSampling c.directSampling.val ∈ (c.HandleFlags visited st).calls) ∧
    (lower val = "none" →
      ({ c with directSampling := (SamplingMode.Set lower quote s val).1 }).dispatch
        "directsampling" = some (.SetDirectSampling 0) ∧
      (({ c with directSampling := (SamplingMode.Set lower quote s val).1 }).HandleFlags
        ["directsampling"] st).calls = [.SetDirectSampling 0]) ∧
    (lower val = "inphase" →
      ({ c with directSampling := (SamplingMode.Set lower quote s val).1 }).dispatch
        "directsampling" = some (.SetDirectSampling 1) ∧
      (({ c with directSampling := (SamplingMode.Set lower quote s val).1 }).HandleFlags
        ["directsampling"] st).calls = [.SetDirectSampling 1]) ∧
    (lower val = "quadrature" →
      ({ c with directSampling := (SamplingMode.Set lower quote s val).1 }).dispatch
        "directsampling" = some (.SetDirectSampling 2) ∧
      (({ c with directSampling := (SamplingMode.Set lower quote s val).1 }).HandleFlags
        ["directsampling"] st).calls = [.SetDirectSampling 2]) := by
  have hd : ∀ d : Context σ,
      d.dispatch "directsampling" = some (.SetDirectSampling d.directSampling.val) := by
    intro d; simp [Context.dispatch]
  have hset : ∀ (v : SamplingMode), (SamplingMode.Set lower quote s val).1 = v →
      ({ c with directSampling := (SamplingMode.Set lower quote s val).1 }).dispatch
        "directsampling" = some (.SetDirectSampling v.val) := by
    intro v hv
    rw [hd, hv]
  refine ⟨rfl, rfl, rfl, rfl, by decide, hd c, HandleFlags_single c _ _ st (hd c), ?_, ?_, ?_,
    ?_, ?_, ?_⟩
  · intro pre post hout
    exact HandleFlags_call_after_returned c pre post "directsampling" _ st hout (hd c)
  · intro n hn
    obtain ⟨f, _, hf⟩ := HandleFlags_call_visited c visited st _ hn
    have hname : f = "directsampling" := (dispatch_flag c f _ hf).symm
    subst hname
    rw [hd c] at hf
    simpa [eq_comm] using hf
  · intro hv hret
    rw [HandleFlags_returned c visited st hret, List.mem_filterMap]
    exact ⟨"directsampling", hv, hd c⟩
  · intro h
    have hv : (SamplingMode.Set lower quote s val).1 = SamplingNone := by
      simp [SamplingMode.Set, h]
    exact ⟨hset _ hv, HandleFlags_single _ _ _ st (hset _ hv)⟩
  · intro h
    have hv : (SamplingMode.Set lower quote s val).1 = SamplingIADC := by
      rw [Set_fst_eq]; simp [variantOf, h]
    exact ⟨hset _ hv, HandleFlags_single _ _ _ st (hset _ hv)⟩
  · intro h
    have hv : (SamplingMode.Set lower quote s val).1 = SamplingQADC := by
      rw [Set_fst_eq]; simp [variantOf, h]
    exact ⟨hset _ hv, HandleFlags_single _ _ _ st (hset _ hv)⟩

theorem directsampling_code_witness :
    (({ Context.zero (mockRadio []) with
        directSampling := (SamplingMode.Set asciiToLower asciiQuote SamplingNone "InPhase").1
      }).HandleFlags ["directsampling"] []).calls = [.SetDirectSampling 1] ∧
    ∃ rest, (({ Context.zero (mockRadio []) with directSampling := SamplingQADC }).HandleFlags
        (["agcmode"] ++ "directsampling" :: ["testmode"]) []).calls =
      [.SetAgcMode false] ++ Call.SetDirectSampling 2 :: rest := by
  constructor
  · exact ((directsampling_code asciiToLower asciiQuote (Context.zero (mockRadio [])) [] []
      SamplingNone "InPhase").2.2.2.2.2.2.2.2.2.2.2.1 (by decide)).2
  · have h := (directsampling_code asciiToLower asciiQuote
      ({ Context.zero (mockRadio []) with directSampling := SamplingQADC }) [] []
      SamplingNone "x").2.2.2.2.2.2.2.1 ["agcmode"] ["testmode"]
      (by simp [Context.HandleFlags, Context.dispatch, Radio.invoke, mockRadio, mockSetter,
        Context.zero, Call.method])
    have hpre : (({ Context.zero (mockRadio []) with directSampling := SamplingQADC }).HandleFlags
        ["agcmode"] []).calls = [.SetAgcMode false] := by
      simp [Context.HandleFlags, Context.dispatch, Radio.invoke, mockRadio, mockSetter,
        Context.zero, Call.method]
    rw [hpre] at h
    exact h

/-- C17: a visited name that is none of the ten registered names has no case in
the switch: HandleFlags makes no call for it, raises no error and goes on with
the next visited flag. The whole run on a visited list, calls, device state and
outcome, equals the run on that list with the foreign names removed. -/
theorem HandleFlags_skips_foreign_names (c : Context σ) (visited : List String) (st : σ) :
    c.HandleFlags visited st = c.HandleFlags (visited.filter (fun f => f ∈ flagNames)) st ∧
    (∀ f rest, f ∉ flagNames → c.HandleFlags (f :: rest) st = c.HandleFlags rest st) ∧
    (∀ f, f ∉ flagNames → c.HandleFlags [f] st = ⟨[], st, .returned⟩) := by
  have hnone : ∀ f, f ∉ flagNames → c.dispatch f = none := by
    intro f hf
    cases h : c.dispatch f with
    | none => rfl
    | some call =>
      exact absurd ((dispatch_isSome_iff c f).mp (by simp [h])) hf
  refine ⟨?_, ?_, ?_⟩
  · rw [HandleFlags_eq_runCalls, HandleFlags_eq_runCalls]
    congr 1
    induction visited with
    | nil => rfl
    | cons f fs ih =>
      by_cases hf : f ∈ flagNames
      · rw [List.filter_cons_of_pos (by simpa using hf)]
        cases hd : c.dispatch f <;> simp [List.filterMap_cons, hd, ih]
      · rw [List.filter_cons_of_neg (by simpa using hf)]
        simp [List.filterMap_cons, hnone f hf, ih]
  · intro f rest hf
    simp [Context.HandleFlags, hnone f hf]
  · intro f hf
    simp [Context.HandleFlags, hnone f hf]

theorem HandleFlags_skips_foreign_names_witness :
    "verbose" ∉ flagNames ∧
    scenarioContext.HandleFlags ["agcmode", "samplerate", "verbose"] () =
      scenarioContext.HandleFlags ["agcmode", "samplerate"] () ∧
    scenarioContext.HandleFlags ["verbose"] () = ⟨[], (), .returned⟩ := by
  have hv : "verbose" ∉ flagNames := by decide
  have h := HandleFlags_skips_foreign_names scenarioContext ["agcmode", "samplerate", "verbose"] ()
  refine ⟨hv, ?_, h.2.2 "verbose" hv⟩
  have hf : ["agcmode", "samplerate", "verbose"].filter (fun f => f ∈ flagNames) =
      ["agcmode", "samplerate"] := by decide
  rw [← hf]
  exact h.1

/-- C18: starting from the zero value SamplingNone, after any finite sequence
of Set calls the receiver is SamplingNone, SamplingIADC or SamplingQADC, and it
is the variant named by the last text of the sequence that matches,
SamplingNone when no text matches. A Set call on a receiver other than
SamplingUnknown never leaves SamplingUnknown, so the receiver is never
SamplingUnknown and String never returns `Unknown` for it. -/
theorem setAll_from_SamplingNone (lower quote : String → String) (texts : List String) :
    (setAll lower quote SamplingNone texts = SamplingNone ∨
      setAll lower quote SamplingNone texts = SamplingIADC ∨
      setAll lower quote SamplingNone texts = SamplingQADC) ∧
    setAll lower quote SamplingNone texts =
      ((texts.filterMap (variantOf lower)).getLast?).getD SamplingNone ∧
    (∀ pre t post v, texts = pre ++ t :: post → variantOf lower t = some v →
      (∀ u ∈ post, variantOf lower u = none) → setAll lower quote SamplingNone texts = v) ∧
    ((∀ u ∈ texts, variantOf lower u = none) →
      setAll lower quote SamplingNone texts = SamplingNone) ∧
    (∀ s val, s ≠ SamplingUnknown → (SamplingMode.Set lower quote s val).1 ≠ SamplingUnknown) ∧
    setAll lower quote SamplingNone texts ≠ SamplingUnknown ∧
    (setAll lower quote SamplingNone texts).String ≠ "Unknown" := by
  have heq := setAll_eq lower quote SamplingNone texts
  have hmem : setAll lower quote SamplingNone texts = SamplingNone ∨
      setAll lower quote SamplingNone texts = SamplingIADC ∨
      setAll lower quote SamplingNone texts = SamplingQADC := by
    rw [heq]
    cases hl : (texts.filterMap (variantOf lower)).getLast? with
    | none => exact Or.inl rfl
    | some v =>
      have hv : v ∈ texts.filterMap (variantOf lower) := List.mem_of_getLast?_eq_some hl
      obtain ⟨t, _, ht⟩ := List.mem_filterMap.mp hv
      simpa using variantOf_mem lower t v ht
  have hfn : ∀ l : List String, (∀ u ∈ l, variantOf lower u = none) →
      l.filterMap (variantOf lower) = [] := by
    intro l hl
    rw [List.filterMap_eq_nil_iff]
    exact hl
  refine ⟨hmem, heq, ?_, ?_, ?_, ?_, ?_⟩
  · intro pre t post v ht hv hpost
    rw [heq, ht, List.filterMap_append, List.filterMap_cons, hv, hfn post hpost]
    simp
  · intro hall
    rw [heq, hfn texts hall]
    rfl
  · intro s val hs
    rw [Set_fst_eq]
    cases hv : variantOf lower val with
    | none => simpa using hs
    | some v =>
      rcases variantOf_mem lower val v hv with h | h | h <;> subst h <;>
        simp only [Option.getD_some] <;> decide
  · rcases hmem with h | h | h <;> rw [h] <;> decide
  · rcases hmem with h | h | h <;> rw [h] <;> decide

theorem setAll_from_SamplingNone_witness :
    setAll asciiToLower asciiQuote SamplingNone ["InPhase", "bogus", "QUADRATURE", "x"] =
      SamplingQADC :=
  (setAll_from_SamplingNone asciiToLower asciiQuote
    ["InPhase", "bogus", "QUADRATURE", "x"]).2.2.1 ["InPhase", "bogus"] "QUADRATURE" ["x"]
    SamplingQADC rfl (by decide) (by decide)

end claims

end rtlflags
